import Mathlib

/-!
# libstix2: property units, composites and their JSON form

A shallow embedding of

* `objects/properties/base.go`  (namespace `properties`),
* `objects/baseobject/lang.go`  (namespace `baseobject`),
* `resources/discovery/discovery.go` (namespace `discovery`),

together with a model of what `encoding/json` does with the struct tags of
these files (namespace `json`).

Conventions of the embedding.

* A method with a pointer receiver that assigns to a field becomes a function
  from the receiver's state to the new state and the returned `error`.
  A getter has no assignment in its body and becomes a projection.
* Go's `error` is `Option String`, `none` being `nil`.
* Go's `int` is `Int`: no method does arithmetic on it.
* Go's `string` is `GoString`, a sequence of bytes that need not be UTF-8.  A
  string literal of Go is written as a Lean string literal and stands for its
  UTF-8 bytes.
* A `[]string` is `Option (List GoString)`: `none` is the nil slice, `some l`
  an allocated slice with elements `l`.  Capacity and aliasing of the backing
  array are left out of this value model; the namespace `heap` models the
  same methods behind pointers, with slice headers and backing arrays, and
  the two are related there.
-/

namespace Libstix2

/-- Go's `error`: `none` is `nil`. -/
abbrev error := Option String

/-- A byte. -/
abbrev Byte := Fin 256

/-- Go's `string`: a sequence of bytes. -/
structure GoString where
  bytes : List Byte
  deriving DecidableEq

/-! ## unicode/utf8 -/

namespace utf8

/-- Go's `utf8.EncodeRune`: the UTF-8 bytes of a rune. -/
def EncodeRune (c : Char) : List Byte :=
  if c.toNat < 0x80 then [Fin.ofNat c.toNat]
  else if c.toNat < 0x800 then [Fin.ofNat (0xC0 + c.toNat / 64), Fin.ofNat (0x80 + c.toNat % 64)]
  else if c.toNat < 0x10000 then
    [Fin.ofNat (0xE0 + c.toNat / 4096), Fin.ofNat (0x80 + c.toNat / 64 % 64),
      Fin.ofNat (0x80 + c.toNat % 64)]
  else
    [Fin.ofNat (0xF0 + c.toNat / 262144), Fin.ofNat (0x80 + c.toNat / 4096 % 64),
      Fin.ofNat (0x80 + c.toNat / 64 % 64), Fin.ofNat (0x80 + c.toNat % 64)]

/-- The least second byte that may follow the first byte `b0` (the table
`acceptRanges` of Go's `unicode/utf8`). -/
def lo (b0 : Nat) : Nat := if b0 = 0xE0 then 0xA0 else if b0 = 0xF0 then 0x90 else 0x80

/-- The greatest second byte that may follow the first byte `b0`. -/
def hi (b0 : Nat) : Nat := if b0 = 0xED then 0x9F else if b0 = 0xF4 then 0x8F else 0xBF

/-- A continuation byte. -/
def cont (b : Nat) : Bool := 0x80 ≤ b && b ≤ 0xBF

/-- Go's `utf8.DecodeRuneInString`: the rune at the head of the bytes and the
number of bytes it takes; `(0xFFFD, 1)` if the head is not the UTF-8 encoding
of a rune, `(0xFFFD, 0)` if there are no bytes. -/
def DecodeRune : List Byte → Nat × Nat
  | [] => (0xFFFD, 0)
  | b0 :: rest =>
    if b0.val < 0x80 then (b0.val, 1)
    else if b0.val < 0xC2 then (0xFFFD, 1)
    else if b0.val < 0xE0 then
      match rest with
      | b1 :: _ =>
        if cont b1.val then ((b0.val - 0xC0) * 64 + (b1.val - 0x80), 2) else (0xFFFD, 1)
      | _ => (0xFFFD, 1)
    else if b0.val < 0xF0 then
      match rest with
      | b1 :: b2 :: _ =>
        if lo b0.val ≤ b1.val && b1.val ≤ hi b0.val && cont b2.val then
          ((b0.val - 0xE0) * 4096 + (b1.val - 0x80) * 64 + (b2.val - 0x80), 3)
        else (0xFFFD, 1)
      | _ => (0xFFFD, 1)
    else if b0.val < 0xF5 then
      match rest with
      | b1 :: b2 :: b3 :: _ =>
        if lo b0.val ≤ b1.val && b1.val ≤ hi b0.val && cont b2.val && cont b3.val then
          ((b0.val - 0xF0) * 262144 + (b1.val - 0x80) * 4096 + (b2.val - 0x80) * 64
            + (b3.val - 0x80), 4)
        else (0xFFFD, 1)
      | _ => (0xFFFD, 1)
    else (0xFFFD, 1)

/-- The runes of a byte sequence, read front to back as `encoding/json` and
`range` do: a byte that starts no rune counts as U+FFFD and one byte is
skipped.  The first argument bounds the number of runes; the number of bytes
is enough. -/
def runes : Nat → List Byte → List Char
  | 0, _ => []
  | _ + 1, [] => []
  | fuel + 1, b :: bs =>
    Char.ofNat (DecodeRune (b :: bs)).1 :: runes fuel ((b :: bs).drop (DecodeRune (b :: bs)).2)

/-- Go's `utf8.ValidString` on a byte sequence (the first argument as for
`runes`). -/
def valid : Nat → List Byte → Bool
  | 0, bs => bs.isEmpty
  | _ + 1, [] => true
  | fuel + 1, b :: bs =>
    !(DecodeRune (b :: bs) == (0xFFFD, 1)) && valid fuel ((b :: bs).drop (DecodeRune (b :: bs)).2)

end utf8

/-- The Go string with the UTF-8 bytes of a text: a string literal, or a JSON
string read by the decoder. -/
def GoString.ofString (s : String) : GoString := ⟨s.toList.flatMap utf8.EncodeRune⟩

/-- The text of a Go string as `encoding/json` writes it: the runes of its
bytes, U+FFFD for each byte that is not part of valid UTF-8. -/
def GoString.toText (b : GoString) : String := String.mk (utf8.runes b.bytes.length b.bytes)

/-- Go's `utf8.ValidString`. -/
def GoString.Valid (b : GoString) : Bool := utf8.valid b.bytes.length b.bytes

/-- The Go string that comes back when a Go string is written by the JSON
encoder and read by the decoder: every byte that is not part of valid UTF-8
has become the three bytes of U+FFFD. -/
def GoString.viaJSON (b : GoString) : GoString := GoString.ofString b.toText

/-- A string literal stands for the Go string of its UTF-8 bytes. -/
instance : Coe String GoString := ⟨GoString.ofString⟩

/-- A Go `[]string`: `none` is the nil slice. -/
abbrev StringSlice := Option (List GoString)

/-- The elements of a slice; the nil slice has none. -/
def StringSlice.elems : StringSlice → List GoString
  | none => []
  | some l => l

/-- Go's `len` on a `[]string`. -/
def StringSlice.len (a : StringSlice) : Nat := a.elems.length

/-- Go's `make([]string, 0)`. -/
def StringSlice.make0 : StringSlice := some []

/-- Go's built-in `append(a, s)`: the result is never nil. -/
def StringSlice.append (a : StringSlice) (s : GoString) : StringSlice :=
  some (a.elems ++ [s])

/-! ## encoding/json on tagged structs

The sources have no marshalling code of their own: the external form of a
composite is what `encoding/json` makes of its struct tags.  This section
models that: the fields a struct type offers (with field promotion from
embedded structs and Go's dominance rule), `omitempty`, the value encoding,
the compact text, and decoding into a struct. -/

namespace json

/-- A JSON value other than an array of such values.  `other` stands for the
values no field of these structs can hold or produce (a number that is not an
integer, an object, an array inside an array), kept as JSON text. -/
inductive Elem where
  | null
  | bool (b : Bool)
  | num (i : Int)
  | str (s : String)
  | other (text : String)
  deriving DecidableEq

/-- A JSON value as a member of an object. -/
inductive Value where
  | elem (e : Elem)
  | arr (l : List Elem)
  deriving DecidableEq

/-- A JSON object: its members in textual order. -/
abbrev Document := List (String × Value)

/-- The keys of a document, in order. -/
def keys (doc : Document) : List String := doc.map Prod.fst

/-- The members of a document that have key `k`. -/
def members (doc : Document) (k : String) : Document := doc.filter (fun kv => kv.1 == k)

/-- One field that a struct type offers to the encoder and decoder.
`depth` counts the embedded structs between the type and the field,
`tagged` says that `name` comes from a `json` tag, `isEmpty` is Go's
`isEmptyValue` on the field and `encode` its JSON value.
`decode grow v spare x` stores the JSON value `v` into the field of `x`: it
returns the struct, the type error if the shape of `v` is wrong, and, for a
slice field, the cells of the backing array beyond the slice's length, which
are `spare` before the call (`grow` is the runtime's capacity growth rule).
A field that is no slice hands `spare` back. -/
structure Field (α : Type) where
  name : String
  tagged : Bool
  omitEmpty : Bool
  depth : Nat
  isEmpty : α → Bool
  encode : α → Value
  decode : (Nat → Nat) → Value → List GoString → α → α × List GoString × error

/-- The `UnmarshalTypeError` for a field (the message is abbreviated). -/
def typeError (key goType : String) : error :=
  some ("json: cannot unmarshal value into Go struct field " ++ key ++ " of type " ++ goType)

/-- A field of Go type `string` with tag `json:"key"` or `json:"key,omitempty"`. -/
def stringField {α : Type} (key : String) (omitempty : Bool) (get : α → GoString)
    (set : GoString → α → α) : Field α :=
  { name := key, tagged := true, omitEmpty := omitempty, depth := 0
    isEmpty := fun x => get x == ""
    encode := fun x => .elem (.str (get x).toText)
    decode := fun _ v spare x =>
      match v with
      | .elem (.str s) => (set (GoString.ofString s) x, spare, none)
      | .elem .null => (x, spare, none)
      | _ => (x, spare, typeError key "string") }

/-- A field of Go type `int` (64 bits) with a `json` tag. -/
def intField {α : Type} (key : String) (omitempty : Bool) (get : α → Int)
    (set : Int → α → α) : Field α :=
  { name := key, tagged := true, omitEmpty := omitempty, depth := 0
    isEmpty := fun x => get x == 0
    encode := fun x => .elem (.num (get x))
    decode := fun _ v spare x =>
      match v with
      | .elem (.num i) =>
          if -(2 : Int) ^ 63 ≤ i ∧ i < (2 : Int) ^ 63 then (set i x, spare, none)
          else (x, spare, typeError key "int")
      | .elem .null => (x, spare, none)
      | _ => (x, spare, typeError key "int") }

/-- A field of Go type `bool` with a `json` tag. -/
def boolField {α : Type} (key : String) (omitempty : Bool) (get : α → Bool)
    (set : Bool → α → α) : Field α :=
  { name := key, tagged := true, omitEmpty := omitempty, depth := 0
    isEmpty := fun x => !get x
    encode := fun x => .elem (.bool (get x))
    decode := fun _ v spare x =>
      match v with
      | .elem (.bool b) => (set b x, spare, none)
      | .elem .null => (x, spare, none)
      | _ => (x, spare, typeError key "bool") }

/-- Decoding the elements of a JSON array into the cells of a `[]string`, as
the decoder's `array` does.  `cells` is the backing array (the elements and
the spare cells after them), `i` the index of the next element.  When `i`
reaches the capacity the backing array is replaced by a grown one, zero
strings in its new cells.  A string is stored into cell `i`; a `null` leaves
the cell as it is; a value of another shape leaves it too and is a type error
(the flag). -/
def decodeCells (grow : Nat → Nat) : List GoString → Nat → List Elem → List GoString × Bool
  | cells, _, [] => (cells, false)
  | cells, i, e :: es =>
    let cells1 : List GoString :=
      if i < cells.length then cells
      else cells ++ List.replicate (max (grow cells.length) (i + 1) - cells.length) ("" : GoString)
    match e with
    | .str s => decodeCells grow (cells1.set i (GoString.ofString s)) (i + 1) es
    | .null => decodeCells grow cells1 (i + 1) es
    | _ => ((decodeCells grow cells1 (i + 1) es).1, true)

/-- A field of Go type `[]string` with a `json` tag.  Decoding an array of `n`
elements leaves the first `n` cells as the slice and the others as spare
cells; an empty array gives a new empty slice, `null` the nil slice. -/
def stringsField {α : Type} (key : String) (omitempty : Bool) (get : α → StringSlice)
    (set : StringSlice → α → α) : Field α :=
  { name := key, tagged := true, omitEmpty := omitempty, depth := 0
    isEmpty := fun x => (get x).len == 0
    encode := fun x =>
      match get x with
      | none => .elem .null
      | some l => .arr (l.map fun s => Elem.str s.toText)
    decode := fun grow v spare x =>
      match v with
      | .arr l =>
          if l.isEmpty then (set (some []) x, [], none)
          else
            let r := decodeCells grow ((get x).elems ++ spare) 0 l
            (set (some (r.1.take l.length)) x, r.1.drop l.length,
              if r.2 then typeError key "string" else none)
      | .elem .null => (set none x, [], none)
      | _ => (x, spare, typeError key "[]string") }

/-- A field tagged `json:"-"` is no field for the encoder or the decoder. -/
def skipped {α : Type} : List (Field α) := []

/-- A field of an embedded struct, seen from the embedding struct: promoted,
one level deeper. -/
def Field.embed {α β : Type} (proj : α → β) (upd : β → α → α) (f : Field β) : Field α :=
  { name := f.name, tagged := f.tagged, omitEmpty := f.omitEmpty, depth := f.depth + 1
    isEmpty := fun x => f.isEmpty (proj x)
    encode := fun x => f.encode (proj x)
    decode := fun grow v spare x =>
      let r := f.decode grow v spare (proj x)
      (upd r.1 x, r.2) }

/-- The fields an embedded struct (without a tag of its own) contributes. -/
def embed {α β : Type} (proj : α → β) (upd : β → α → α) (fs : List (Field β)) :
    List (Field α) :=
  fs.map (Field.embed proj upd)

/-- Go's dominance rule (`dominantField`): among the fields of one name the
one of least depth is taken; if several share the least depth, the single
tagged one is taken; otherwise none of that name is. -/
def dominant {α : Type} (fs : List (Field α)) (f : Field α) : Bool :=
  let grp := fs.filter (fun g => g.name == f.name)
  let top := grp.filter (fun g => g.depth == f.depth)
  grp.all (fun g => f.depth ≤ g.depth) &&
    (top.length == 1 || (f.tagged && (top.filter (fun g => g.tagged)).length == 1))

/-- The fields the encoder and decoder use, in declaration order. -/
def selected {α : Type} (fs : List (Field α)) : List (Field α) :=
  fs.filter (dominant fs)

/-- What a field emits for `x`: nothing if it is `omitempty` and empty. -/
def Field.emit {α : Type} (x : α) (f : Field α) : Option (String × Value) :=
  if f.omitEmpty && f.isEmpty x then none else some (f.name, f.encode x)

/-- Go's `json.Marshal` of a struct with fields `fs`, as a document. -/
def Marshal {α : Type} (fs : List (Field α)) (x : α) : Document :=
  (selected fs).filterMap (Field.emit x)

/-- Simple case folding of a rune, on the runes that fold to an ASCII letter
(the capital letters, the long s and the Kelvin sign). -/
def foldRune (c : Char) : Char :=
  if 65 ≤ c.toNat ∧ c.toNat ≤ 90 then Char.ofNat (c.toNat + 32)
  else if c.toNat = 0x17F then Char.ofNat 115
  else if c.toNat = 0x212A then Char.ofNat 107
  else c

/-- Case-insensitive comparison of a key with a field name. -/
def equalFold (s t : String) : Bool :=
  s.toList.map foldRune == t.toList.map foldRune

/-- The field a key of the input addresses: the one of that exact name, else
the first whose name matches without regard to case. -/
def findField {α : Type} (fs : List (Field α)) (k : String) : Option (Field α) :=
  match fs.find? (fun f => f.name == k) with
  | some f => some f
  | none => fs.find? (fun f => equalFold f.name k)

/-- The state of the decoder inside an object: the struct so far, the spare
cells of each slice field by the field's name, and the first type error. -/
structure Decoding (α : Type) where
  value : α
  spare : String → List GoString
  err : error

/-- Decoding one member of the input object: an unknown key is skipped; a
type error is kept (the first one) and decoding goes on. -/
def unmarshalMember {α : Type} (grow : Nat → Nat) (sel : List (Field α)) (st : Decoding α)
    (kv : String × Value) : Decoding α :=
  match findField sel kv.1 with
  | none => st
  | some f =>
    let r := f.decode grow kv.2 (st.spare f.name) st.value
    { value := r.1
      spare := Function.update st.spare f.name r.2.1
      err := if st.err.isSome then st.err else r.2.2 }

/-- Go's `json.Unmarshal` of a document into the struct value `x`, whose
slices have no spare capacity (as in a new struct): the struct it leaves and
the error it returns. -/
def Unmarshal {α : Type} (grow : Nat → Nat) (fs : List (Field α)) (doc : Document) (x : α) :
    α × error :=
  ((doc.foldl (unmarshalMember grow (selected fs))
      { value := x, spare := fun _ => [], err := none }).value,
   (doc.foldl (unmarshalMember grow (selected fs))
      { value := x, spare := fun _ => [], err := none }).err)

/-- Two hexadecimal digits of a number below 256. -/
def hex2 (n : Nat) : String :=
  String.mk [Nat.digitChar (n / 16), Nat.digitChar (n % 16)]

/-- The text of one rune inside a JSON string, with the escapes of
`json.Marshal` (HTML escaping on).  Backspace and form feed are written
`\b` and `\f`, as current Go releases do (older ones wrote `\u0008` and
`\u000c`). -/
def escapeRune (c : Char) : String :=
  if c.toNat = 34 then "\\\""
  else if c.toNat = 92 then "\\\\"
  else if c.toNat = 8 then "\\b"
  else if c.toNat = 12 then "\\f"
  else if c.toNat = 10 then "\\n"
  else if c.toNat = 13 then "\\r"
  else if c.toNat = 9 then "\\t"
  else if c.toNat < 32 ∨ c.toNat = 60 ∨ c.toNat = 62 ∨ c.toNat = 38 then
    "\\u00" ++ hex2 c.toNat
  else if c.toNat = 0x2028 then "\\u2028"
  else if c.toNat = 0x2029 then "\\u2029"
  else String.singleton c

/-- The text of a JSON string. -/
def renderString (s : String) : String :=
  "\"" ++ String.join (s.toList.map escapeRune) ++ "\""

/-- The text of a scalar. -/
def renderElem : Elem → String
  | .null => "null"
  | .bool b => if b then "true" else "false"
  | .num i => toString i
  | .str s => renderString s
  | .other text => text

/-- The text of a member value. -/
def renderValue : Value → String
  | .elem e => renderElem e
  | .arr l => "[" ++ ",".intercalate (l.map renderElem) ++ "]"

/-- The compact text of a document, as `json.Marshal` writes it.  (For a
byte that was replaced by U+FFFD Go writes the escape `\ufffd` where this
text has the rune itself; both are texts of the same document.) -/
def render (doc : Document) : String :=
  "\x7b" ++ ",".intercalate (doc.map fun kv => renderString kv.1 ++ ":" ++ renderValue kv.2)
    ++ "\x7d"

end json

/-! ## objects/properties/base.go -/

namespace properties

/-- The struct `BaseProperties` (base.go 28-35).  The embedded `TypeProperty`,
`IDProperty` and `BaseTimestampProperties` are declared in files that are not
part of the sources at hand; their types are the parameters `T`, `I`, `B`. -/
structure BaseProperties (T I B : Type) where
  ObjectID : Int
  TypeProperty : T
  SpecVersion : GoString
  IDProperty : I
  CreatedByRef : GoString
  BaseTimestampProperties : B

namespace BaseProperties

variable {T I B : Type}

/-- Method `SetObjectID` (base.go 45-48). -/
def SetObjectID (p : BaseProperties T I B) (i : Int) : BaseProperties T I B × error :=
  ({ p with ObjectID := i }, none)

/-- Method `GetObjectID` (base.go 53-55). -/
def GetObjectID (p : BaseProperties T I B) : Int := p.ObjectID

/-- Method `SetSpecVersion20` (base.go 60-63). -/
def SetSpecVersion20 (p : BaseProperties T I B) : BaseProperties T I B × error :=
  ({ p with SpecVersion := "2.0" }, none)

/-- Method `SetSpecVersion21` (base.go 68-71). -/
def SetSpecVersion21 (p : BaseProperties T I B) : BaseProperties T I B × error :=
  ({ p with SpecVersion := "2.1" }, none)

/-- Method `SetSpecVersion` (base.go 77-80). -/
def SetSpecVersion (p : BaseProperties T I B) (s : GoString) : BaseProperties T I B × error :=
  ({ p with SpecVersion := s }, none)

/-- Method `GetSpecVersion` (base.go 85-87). -/
def GetSpecVersion (p : BaseProperties T I B) : GoString := p.SpecVersion

/-- Method `SetCreatedByRef` (base.go 93-96). -/
def SetCreatedByRef (p : BaseProperties T I B) (s : GoString) : BaseProperties T I B × error :=
  ({ p with CreatedByRef := s }, none)

/-- Method `GetCreatedByRef` (base.go 102-104). -/
def GetCreatedByRef (p : BaseProperties T I B) : GoString := p.CreatedByRef

end BaseProperties

/-- The struct `ConfidenceProperty` (base.go 114-116). -/
structure ConfidenceProperty where
  Confidence : Int
  deriving DecidableEq

/-- The struct `DescriptionProperty` (base.go 122-124). -/
structure DescriptionProperty where
  Description : GoString
  deriving DecidableEq

/-- The struct `LangProperty` (base.go 131-133). -/
structure LangProperty where
  Lang : GoString
  deriving DecidableEq

/-- The struct `NameProperty` (base.go 139-141). -/
structure NameProperty where
  Name : GoString
  deriving DecidableEq

/-- The struct `RevokedProperty` (base.go 148-150). -/
structure RevokedProperty where
  Revoked : Bool
  deriving DecidableEq

/-- Method `SetConfidence` (base.go 160-163). -/
def ConfidenceProperty.SetConfidence (p : ConfidenceProperty) (i : Int) :
    ConfidenceProperty × error :=
  ({ p with Confidence := i }, none)

/-- Method `GetConfidence` (base.go 168-170). -/
def ConfidenceProperty.GetConfidence (p : ConfidenceProperty) : Int := p.Confidence

/-- Method `SetDescription` (base.go 180-183). -/
def DescriptionProperty.SetDescription (p : DescriptionProperty) (s : GoString) :
    DescriptionProperty × error :=
  ({ p with Description := s }, none)

/-- Method `GetDescription` (base.go 188-190). -/
def DescriptionProperty.GetDescription (p : DescriptionProperty) : GoString := p.Description

/-- Method `SetLang` (base.go 200-203). -/
def LangProperty.SetLang (p : LangProperty) (s : GoString) : LangProperty × error :=
  ({ p with Lang := s }, none)

/-- Method `GetLang` (base.go 208-210). -/
def LangProperty.GetLang (p : LangProperty) : GoString := p.Lang

/-- Method `SetName` (base.go 220-223). -/
def NameProperty.SetName (p : NameProperty) (s : GoString) : NameProperty × error :=
  ({ p with Name := s }, none)

/-- Method `GetName` (base.go 228-230). -/
def NameProperty.GetName (p : NameProperty) : GoString := p.Name

/-- Method `SetRevoked` (base.go 239-242). -/
def RevokedProperty.SetRevoked (p : RevokedProperty) : RevokedProperty × error :=
  ({ p with Revoked := true }, none)

/-- Method `GetRevoked` (base.go 247-249). -/
def RevokedProperty.GetRevoked (p : RevokedProperty) : Bool := p.Revoked

/-- The operations of the revocation unit. -/
inductive RevokedOp where
  | setRevoked
  | getRevoked
  deriving DecidableEq

/-- One call on a `RevokedProperty`: the state the call leaves. -/
def RevokedProperty.step (p : RevokedProperty) : RevokedOp → RevokedProperty
  | .setRevoked => p.SetRevoked.1
  | .getRevoked => p

/-- A finite sequence of calls on a `RevokedProperty`, left to right. -/
def RevokedProperty.run (p : RevokedProperty) (ops : List RevokedOp) : RevokedProperty :=
  ops.foldl RevokedProperty.step p

/-- The three setters of the specification version. -/
inductive SpecVersionOp where
  | set20
  | set21
  | set (s : GoString)
  deriving DecidableEq

/-- The string a specification-version setter writes. -/
def SpecVersionOp.written : SpecVersionOp → GoString
  | .set20 => "2.0"
  | .set21 => "2.1"
  | .set s => s

/-- One call of a specification-version setter: the state the call leaves. -/
def BaseProperties.stepSpecVersion {T I B : Type} (p : BaseProperties T I B) :
    SpecVersionOp → BaseProperties T I B
  | .set20 => p.SetSpecVersion20.1
  | .set21 => p.SetSpecVersion21.1
  | .set s => (p.SetSpecVersion s).1

/-- A finite sequence of specification-version setter calls, left to right. -/
def BaseProperties.runSpecVersion {T I B : Type} (p : BaseProperties T I B)
    (ops : List SpecVersionOp) : BaseProperties T I B :=
  ops.foldl BaseProperties.stepSpecVersion p

/-- The field `SpecVersion string` with tag `json:"spec_version,omitempty"`
(base.go 31). -/
def BaseProperties.SpecVersionField {T I B : Type} : json.Field (BaseProperties T I B) :=
  json.stringField "spec_version" true (fun p => p.SpecVersion)
    (fun s p => { p with SpecVersion := s })

/-- The field `CreatedByRef string` with tag `json:"created_by_ref,omitempty"`
(base.go 33). -/
def BaseProperties.CreatedByRefField {T I B : Type} : json.Field (BaseProperties T I B) :=
  json.stringField "created_by_ref" true (fun p => p.CreatedByRef)
    (fun s p => { p with CreatedByRef := s })

/-- The fields of `BaseProperties` (base.go 28-35), given the fields `tf`,
`idf`, `bf` of the three embedded structs that are declared elsewhere (taken
to be plain structs, without marshalling methods of their own). -/
def BaseProperties.fields {T I B : Type} (tf : List (json.Field T)) (idf : List (json.Field I))
    (bf : List (json.Field B)) : List (json.Field (BaseProperties T I B)) :=
  json.skipped -- ObjectID int `json:"-"`
  ++ json.embed (fun p => p.TypeProperty) (fun t p => { p with TypeProperty := t }) tf
  ++ [BaseProperties.SpecVersionField]
  ++ json.embed (fun p => p.IDProperty) (fun i p => { p with IDProperty := i }) idf
  ++ [BaseProperties.CreatedByRefField]
  ++ json.embed (fun p => p.BaseTimestampProperties)
        (fun b p => { p with BaseTimestampProperties := b }) bf

/-- Go's `json.Marshal` of a `BaseProperties`, as a document. -/
def BaseProperties.Marshal {T I B : Type} (tf : List (json.Field T)) (idf : List (json.Field I))
    (bf : List (json.Field B)) (p : BaseProperties T I B) : json.Document :=
  json.Marshal (BaseProperties.fields tf idf bf) p

/-- The zero value of `BaseProperties`, given those of the embedded structs. -/
def BaseProperties.zero {T I B : Type} (t0 : T) (i0 : I) (b0 : B) : BaseProperties T I B :=
  { ObjectID := 0, TypeProperty := t0, SpecVersion := "", IDProperty := i0,
    CreatedByRef := "", BaseTimestampProperties := b0 }

/-- Go's `json.Unmarshal` of a document into a zero-valued `BaseProperties`. -/
def BaseProperties.Unmarshal {T I B : Type} (grow : Nat → Nat) (tf : List (json.Field T))
    (idf : List (json.Field I)) (bf : List (json.Field B)) (t0 : T) (i0 : I) (b0 : B)
    (doc : json.Document) : BaseProperties T I B × error :=
  json.Unmarshal grow (BaseProperties.fields tf idf bf) doc (BaseProperties.zero t0 i0 b0)

/-- The fields of `ConfidenceProperty` (base.go 115). -/
def ConfidenceProperty.fields : List (json.Field ConfidenceProperty) :=
  [json.intField "confidence" true (fun p => p.Confidence) (fun i p => { p with Confidence := i })]

/-- The fields of `DescriptionProperty` (base.go 123). -/
def DescriptionProperty.fields : List (json.Field DescriptionProperty) :=
  [json.stringField "description" true (fun p => p.Description)
    (fun s p => { p with Description := s })]

/-- The fields of `LangProperty` (base.go 132). -/
def LangProperty.fields : List (json.Field LangProperty) :=
  [json.stringField "lang" true (fun p => p.Lang) (fun s p => { p with Lang := s })]

/-- The fields of `NameProperty` (base.go 140). -/
def NameProperty.fields : List (json.Field NameProperty) :=
  [json.stringField "name" true (fun p => p.Name) (fun s p => { p with Name := s })]

/-- The fields of `RevokedProperty` (base.go 149). -/
def RevokedProperty.fields : List (json.Field RevokedProperty) :=
  [json.boolField "revoked" true (fun p => p.Revoked) (fun b p => { p with Revoked := b })]

end properties

/-! ## objects/baseobject/lang.go -/

namespace baseobject

/-- The struct `LangProperty` (lang.go 17-19). -/
structure LangProperty where
  Lang : GoString
  deriving DecidableEq

/-- Method `SetLang` (lang.go 29-32). -/
def LangProperty.SetLang (o : LangProperty) (s : GoString) : LangProperty × error :=
  ({ o with Lang := s }, none)

/-- Method `GetLang` (lang.go 37-39). -/
def LangProperty.GetLang (o : LangProperty) : GoString := o.Lang

/-- The fields of `LangProperty` (lang.go 18). -/
def LangProperty.fields : List (json.Field LangProperty) :=
  [json.stringField "lang" true (fun o => o.Lang) (fun s o => { o with Lang := s })]

end baseobject

/-! ## resources/discovery/discovery.go -/

namespace discovery

/-- Modelled from the spec: `TitleProperty` of the package
`resources/properties`, which discovery.go imports and which is not among the
sources.  The spec (sections 2 and 6) lists a title unit holding a string,
with external key `title`, omitted when the string is empty. -/
structure TitleProperty where
  Title : GoString
  deriving DecidableEq

/-- The struct `Discovery` (discovery.go 40-46).  The embedded
`DescriptionProperty` is imported by discovery.go from `resources/properties`,
a package that is not among the sources; the declaration of the same name in
`objects/properties/base.go` stands for it (one string field, key
`description`, `omitempty`, as in the spec's table). -/
structure Discovery where
  TitleProperty : TitleProperty
  DescriptionProperty : properties.DescriptionProperty
  Contact : GoString
  Default : GoString
  APIRoots : StringSlice
  deriving DecidableEq

/-- Function `New` (discovery.go 56-59): `var obj Discovery` is the zero value. -/
def New : Discovery :=
  { TitleProperty := { Title := "" }
    DescriptionProperty := { Description := "" }
    Contact := ""
    Default := ""
    APIRoots := none }

namespace Discovery

/-- Method `SetContact` (discovery.go 69-72). -/
def SetContact (r : Discovery) (s : GoString) : Discovery × error :=
  ({ r with Contact := s }, none)

/-- Method `GetContact` (discovery.go 78-80). -/
def GetContact (r : Discovery) : GoString := r.Contact

/-- Method `SetDefault` (discovery.go 86-89). -/
def SetDefault (r : Discovery) (s : GoString) : Discovery × error :=
  ({ r with Default := s }, none)

/-- Method `GetDefault` (discovery.go 94-96). -/
def GetDefault (r : Discovery) : GoString := r.Default

/-- Method `AddAPIRoot` (discovery.go 102-109). -/
def AddAPIRoot (r : Discovery) (s : GoString) : Discovery × error :=
  let r1 : Discovery :=
    if r.APIRoots = none then { r with APIRoots := StringSlice.make0 } else r
  ({ r1 with APIRoots := r1.APIRoots.append s }, none)

/-- Method `SetDescription`, promoted from the embedded `DescriptionProperty`. -/
def SetDescription (r : Discovery) (s : GoString) : Discovery × error :=
  let u := r.DescriptionProperty.SetDescription s
  ({ r with DescriptionProperty := u.1 }, u.2)

/-- Method `GetDescription`, promoted from the embedded `DescriptionProperty`. -/
def GetDescription (r : Discovery) : GoString := r.DescriptionProperty.GetDescription

end Discovery

/-- Modelled from the spec: the field of `TitleProperty` (spec section 6:
key `title`, omitted when the string is empty). -/
def TitleProperty.fields : List (json.Field TitleProperty) :=
  [json.stringField "title" true (fun p => p.Title) (fun s p => { p with Title := s })]

/-- The fields of `Discovery` (discovery.go 40-46). -/
def Discovery.fields : List (json.Field Discovery) :=
  json.embed (fun r => r.TitleProperty) (fun t r => { r with TitleProperty := t })
    TitleProperty.fields
  ++ json.embed (fun r => r.DescriptionProperty) (fun u r => { r with DescriptionProperty := u })
    properties.DescriptionProperty.fields
  ++ [json.stringField "contact" true (fun r => r.Contact) (fun s r => { r with Contact := s }),
      json.stringField "default" true (fun r => r.Default) (fun s r => { r with Default := s }),
      json.stringsField "api_roots" true (fun r => r.APIRoots)
        (fun a r => { r with APIRoots := a })]

/-- The object of the scenario of spec section 8: `New()`, then `SetContact`,
`SetDefault` and two `AddAPIRoot` calls. -/
def scenario : Discovery :=
  ((((New.SetContact "ops@example.com").1.SetDefault "https://example.com/api1/").1.AddAPIRoot
    "https://example.com/api1/").1.AddAPIRoot "https://example.com/api2/").1

/-- A `Discovery` whose `APIRoots` is allocated and empty (`[]string{}`). -/
def emptyRoots : Discovery := { New with APIRoots := some [] }

/-- Go's `json.Marshal` of a `Discovery`, as a document. -/
def Discovery.Marshal (r : Discovery) : json.Document := json.Marshal Discovery.fields r

/-- Go's `json.Unmarshal` of a document into a new `Discovery`. -/
def Discovery.Unmarshal (grow : Nat → Nat) (doc : json.Document) : Discovery × error :=
  json.Unmarshal grow Discovery.fields doc New

/-- A capacity growth rule: doubling. -/
def doubling (cap : Nat) : Nat := 2 * cap

/-- The Go string `"\xff"`: one byte, which is not valid UTF-8. -/
def invalidUTF8 : GoString := ⟨[0xff]⟩

/-- A composite that is not among the sources, for the rule on equal keys: a
struct that embeds the `LangProperty` of `objects/properties` and the one of
`objects/baseobject` (in Go the second under an alias, since two embedded
fields need different names). -/
structure TwoLang where
  LangProperty : properties.LangProperty
  BaseLang : baseobject.LangProperty
  deriving DecidableEq

/-- The fields of `TwoLang`: two promoted fields with the key `lang`. -/
def TwoLang.fields : List (json.Field TwoLang) :=
  json.embed (fun c => c.LangProperty) (fun u c => { c with LangProperty := u })
    properties.LangProperty.fields
  ++ json.embed (fun c => c.BaseLang) (fun u c => { c with BaseLang := u })
    baseobject.LangProperty.fields

end discovery

/-! ## Calls and call sequences -/

namespace properties

/-- The methods of `BaseProperties` (base.go 45-104), as calls. -/
inductive BasePropertiesOp where
  | setObjectID (i : Int)
  | getObjectID
  | setSpecVersion20
  | setSpecVersion21
  | setSpecVersion (s : GoString)
  | getSpecVersion
  | setCreatedByRef (s : GoString)
  | getCreatedByRef
  deriving DecidableEq

/-- One call on a `BaseProperties`: the state the call leaves.  A getter
assigns nothing. -/
def BaseProperties.step {T I B : Type} (p : BaseProperties T I B) :
    BasePropertiesOp → BaseProperties T I B
  | .setObjectID i => (p.SetObjectID i).1
  | .getObjectID => p
  | .setSpecVersion20 => p.SetSpecVersion20.1
  | .setSpecVersion21 => p.SetSpecVersion21.1
  | .setSpecVersion s => (p.SetSpecVersion s).1
  | .getSpecVersion => p
  | .setCreatedByRef s => (p.SetCreatedByRef s).1
  | .getCreatedByRef => p

end properties

namespace discovery

/-- Modelled from the spec: `SetTitle` of the title unit, declared in the
package `resources/properties` that is not among the sources.  Spec section
4.1: a unit's setter stores the value, without validation, and reports
success. -/
def TitleProperty.SetTitle (p : TitleProperty) (s : GoString) : TitleProperty × error :=
  ({ p with Title := s }, none)

/-- Modelled from the spec: `GetTitle` of the title unit (spec section 4.1:
the getter returns the stored value). -/
def TitleProperty.GetTitle (p : TitleProperty) : GoString := p.Title

/-- Method `SetTitle`, promoted from the embedded `TitleProperty`. -/
def Discovery.SetTitle (r : Discovery) (s : GoString) : Discovery × error :=
  let u := r.TitleProperty.SetTitle s
  ({ r with TitleProperty := u.1 }, u.2)

/-- Method `GetTitle`, promoted from the embedded `TitleProperty`. -/
def Discovery.GetTitle (r : Discovery) : GoString := r.TitleProperty.GetTitle

/-- The methods of `Discovery`, its own (discovery.go 69-109) and the ones
promoted from the embedded units, as calls. -/
inductive DiscoveryOp where
  | setTitle (s : GoString)
  | getTitle
  | setDescription (s : GoString)
  | getDescription
  | setContact (s : GoString)
  | getContact
  | setDefault (s : GoString)
  | getDefault
  | addAPIRoot (s : GoString)
  deriving DecidableEq

/-- One call on a `Discovery`: the state the call leaves.  A getter assigns
nothing. -/
def Discovery.step (r : Discovery) : DiscoveryOp → Discovery
  | .setTitle s => (r.SetTitle s).1
  | .getTitle => r
  | .setDescription s => (r.SetDescription s).1
  | .getDescription => r
  | .setContact s => (r.SetContact s).1
  | .getContact => r
  | .setDefault s => (r.SetDefault s).1
  | .getDefault => r
  | .addAPIRoot s => (r.AddAPIRoot s).1

/-- A finite sequence of calls on a `Discovery`, left to right. -/
def Discovery.run (r : Discovery) (ops : List DiscoveryOp) : Discovery :=
  ops.foldl Discovery.step r

/-- Whether a call is an `AddAPIRoot` call. -/
def DiscoveryOp.isAddAPIRoot : DiscoveryOp → Bool
  | .addAPIRoot _ => true
  | _ => false

/-- The arguments of the `AddAPIRoot` calls of a sequence, in call order. -/
def addedRoots : List DiscoveryOp → List GoString
  | [] => []
  | .addAPIRoot s :: ops => s :: addedRoots ops
  | _ :: ops => addedRoots ops

end discovery

/-! ## Discovery objects behind pointers

`New` returns a pointer and every method has a pointer receiver; a `[]string`
is a header (backing array, length, capacity) and `append` writes into the
backing array when the capacity allows.  This section models the methods on a
memory of objects and backing arrays, so that two objects could share state
if the code made them. -/

namespace heap

/-- A non-nil `[]string` value: the address of its backing array, its length
and its capacity. -/
structure SliceHeader where
  array : Nat
  len : Nat
  cap : Nat
  deriving DecidableEq

/-- The struct `Discovery` (discovery.go 40-46) as stored in memory: the
embedded units and the strings by value, `APIRoots` as a slice header (`none`
is the nil slice). -/
structure Object where
  TitleProperty : discovery.TitleProperty
  DescriptionProperty : properties.DescriptionProperty
  Contact : GoString
  Default : GoString
  APIRoots : Option SliceHeader
  deriving DecidableEq

/-- Memory: the objects and the backing arrays by address, and the next free
address of each kind.  A backing array is the list of its cells, as many as
its capacity. -/
structure Memory where
  objects : Nat → Object
  arrays : Nat → List GoString
  nextObject : Nat
  nextArray : Nat

/-- The zero value of the struct. -/
def zeroObject : Object :=
  { TitleProperty := { Title := "" }
    DescriptionProperty := { Description := "" }
    Contact := ""
    Default := ""
    APIRoots := none }

/-- Memory before anything is allocated. -/
def Memory.empty : Memory :=
  { objects := fun _ => zeroObject, arrays := fun _ => [], nextObject := 0, nextArray := 0 }

/-- Writing an object at an address. -/
def Memory.store (m : Memory) (r : Nat) (o : Object) : Memory :=
  { m with objects := Function.update m.objects r o }

/-- Function `New` (discovery.go 56-59): a fresh zero-valued object and its
address. -/
def New (m : Memory) : Memory × Nat :=
  ({ m with objects := Function.update m.objects m.nextObject zeroObject
            nextObject := m.nextObject + 1 }, m.nextObject)

/-- Method `SetTitle`, promoted from the embedded `TitleProperty`. -/
def SetTitle (m : Memory) (r : Nat) (s : GoString) : Memory × error :=
  let u := (m.objects r).TitleProperty.SetTitle s
  (m.store r { m.objects r with TitleProperty := u.1 }, u.2)

/-- Method `GetTitle`, promoted from the embedded `TitleProperty`. -/
def GetTitle (m : Memory) (r : Nat) : GoString := (m.objects r).TitleProperty.GetTitle

/-- Method `SetDescription`, promoted from the embedded `DescriptionProperty`. -/
def SetDescription (m : Memory) (r : Nat) (s : GoString) : Memory × error :=
  let u := (m.objects r).DescriptionProperty.SetDescription s
  (m.store r { m.objects r with DescriptionProperty := u.1 }, u.2)

/-- Method `GetDescription`, promoted from the embedded `DescriptionProperty`. -/
def GetDescription (m : Memory) (r : Nat) : GoString :=
  (m.objects r).DescriptionProperty.GetDescription

/-- Method `SetContact` (discovery.go 69-72). -/
def SetContact (m : Memory) (r : Nat) (s : GoString) : Memory × error :=
  (m.store r { m.objects r with Contact := s }, none)

/-- Method `GetContact` (discovery.go 78-80). -/
def GetContact (m : Memory) (r : Nat) : GoString := (m.objects r).Contact

/-- Method `SetDefault` (discovery.go 86-89). -/
def SetDefault (m : Memory) (r : Nat) (s : GoString) : Memory × error :=
  (m.store r { m.objects r with Default := s }, none)

/-- Method `GetDefault` (discovery.go 94-96). -/
def GetDefault (m : Memory) (r : Nat) : GoString := (m.objects r).Default

/-- Go's `make([]string, 0)`: a new backing array without cells.  (The runtime
may give all arrays without cells one address; nothing can be written through
a header of capacity 0, so a separate address for each reads the same.) -/
def make0 (m : Memory) : Memory × SliceHeader :=
  ({ m with arrays := Function.update m.arrays m.nextArray []
            nextArray := m.nextArray + 1 },
   { array := m.nextArray, len := 0, cap := 0 })

/-- Go's `growslice`: a new backing array that holds the `len` old elements
and `s`, zero strings in the remaining cells.  The new capacity is what the
runtime's growth rule `grow` gives for the old capacity, and at least
`len + 1`. -/
def growslice (grow : Nat → Nat) (m : Memory) (old : List GoString) (len cap : Nat)
    (s : GoString) : Memory × SliceHeader :=
  let newcap := max (grow cap) (len + 1)
  ({ m with arrays := Function.update m.arrays m.nextArray
              (old ++ [s] ++ List.replicate (newcap - (len + 1)) ("" : GoString))
            nextArray := m.nextArray + 1 },
   { array := m.nextArray, len := len + 1, cap := newcap })

/-- Go's built-in `append(a, s)`: in place when the capacity allows, into a
grown backing array otherwise. -/
def append (grow : Nat → Nat) (m : Memory) (a : Option SliceHeader) (s : GoString) :
    Memory × SliceHeader :=
  match a with
  | none => growslice grow m [] 0 0 s
  | some h =>
    if h.len < h.cap then
      ({ m with arrays := Function.update m.arrays h.array ((m.arrays h.array).set h.len s) },
       { h with len := h.len + 1 })
    else growslice grow m ((m.arrays h.array).take h.len) h.len h.cap s

/-- Method `AddAPIRoot` (discovery.go 102-109). -/
def AddAPIRoot (grow : Nat → Nat) (m : Memory) (r : Nat) (s : GoString) : Memory × error :=
  let m1 : Memory :=
    if (m.objects r).APIRoots = none then
      let a := make0 m
      a.1.store r { a.1.objects r with APIRoots := some a.2 }
    else m
  let b := append grow m1 (m1.objects r).APIRoots s
  (b.1.store r { b.1.objects r with APIRoots := some b.2 }, none)

/-- One call through the pointer `c.1`: the memory the call leaves. -/
def step (grow : Nat → Nat) (m : Memory) (c : Nat × discovery.DiscoveryOp) : Memory :=
  match c.2 with
  | .setTitle s => (SetTitle m c.1 s).1
  | .getTitle => m
  | .setDescription s => (SetDescription m c.1 s).1
  | .getDescription => m
  | .setContact s => (SetContact m c.1 s).1
  | .getContact => m
  | .setDefault s => (SetDefault m c.1 s).1
  | .getDefault => m
  | .addAPIRoot s => (AddAPIRoot grow m c.1 s).1

/-- A finite sequence of calls, each through its pointer, left to right. -/
def run (grow : Nat → Nat) (m : Memory) (cs : List (Nat × discovery.DiscoveryOp)) : Memory :=
  cs.foldl (step grow) m

/-- The calls of a sequence that go through the pointer `r`. -/
def callsOn (r : Nat) (cs : List (Nat × discovery.DiscoveryOp)) : List discovery.DiscoveryOp :=
  (cs.filter (fun c => c.1 == r)).map Prod.snd

/-- The elements of a slice, read from memory. -/
def Memory.slice (m : Memory) (a : Option SliceHeader) : StringSlice :=
  a.map (fun h => (m.arrays h.array).take h.len)

/-- The value of the object at `r`: its fields, the slice read from memory. -/
def Memory.view (m : Memory) (r : Nat) : discovery.Discovery :=
  { TitleProperty := (m.objects r).TitleProperty
    DescriptionProperty := (m.objects r).DescriptionProperty
    Contact := (m.objects r).Contact
    Default := (m.objects r).Default
    APIRoots := m.slice (m.objects r).APIRoots }

/-- Well-formed memory: every slice header points to an allocated backing
array with room for its capacity, and the headers of two different objects
point to different backing arrays. -/
def Memory.WF (m : Memory) : Prop :=
  (∀ r h, (m.objects r).APIRoots = some h →
    h.array < m.nextArray ∧ h.len ≤ h.cap ∧ h.cap ≤ (m.arrays h.array).length) ∧
  (∀ r r2 h h2, r ≠ r2 → (m.objects r).APIRoots = some h →
    (m.objects r2).APIRoots = some h2 → h.array ≠ h2.array)

/-- Memory after two `New()` calls. -/
def twoNew : Memory := (New (New Memory.empty).1).1

/-- The pointer the first `New()` returns. -/
def d1 : Nat := (New Memory.empty).2

/-- The pointer the second `New()` returns. -/
def d2 : Nat := (New (New Memory.empty).1).2

end heap

open properties discovery

/-! ## Theorems -/

/-- C1. `AddAPIRoot(s)` returns nil and leaves `APIRoots` equal to the previous
elements followed by `s`, keeping insertion order and duplicates; from `New()`
the calls with "a", "b", "a" give ["a"], ["a","b"], ["a","b","a"], also as
the serialised `api_roots`. -/
theorem C1_AddAPIRoot_appends :
    (∀ (d : Discovery) (s : GoString),
      (d.AddAPIRoot s).2 = none ∧
      (d.AddAPIRoot s).1.APIRoots = some (d.APIRoots.elems ++ [s])) ∧
    (New.AddAPIRoot "a").1.APIRoots = (some ["a"] : StringSlice) ∧
    ((New.AddAPIRoot "a").1.AddAPIRoot "b").1.APIRoots = (some ["a", "b"] : StringSlice) ∧
    (((New.AddAPIRoot "a").1.AddAPIRoot "b").1.AddAPIRoot "a").1.APIRoots
      = (some ["a", "b", "a"] : StringSlice) ∧
    (New.AddAPIRoot "a").1.Marshal = [("api_roots", json.Value.arr [.str "a"])] ∧
    ((New.AddAPIRoot "a").1.AddAPIRoot "b").1.Marshal
      = [("api_roots", json.Value.arr [.str "a", .str "b"])] ∧
    (((New.AddAPIRoot "a").1.AddAPIRoot "b").1.AddAPIRoot "a").1.Marshal
      = [("api_roots", json.Value.arr [.str "a", .str "b", .str "a"])] := by
  refine ⟨fun d s => ⟨rfl, ?_⟩, rfl, rfl, rfl, by decide, by decide, by decide⟩
  cases h : d.APIRoots <;>
    simp [Discovery.AddAPIRoot, StringSlice.append, StringSlice.elems, StringSlice.make0, h]


/-- C2. For every unit and every value of its type, the getter called right
after the setter returns exactly the value passed in: no validation, no
normalisation (any integer for the confidence, any string for the
specification version). -/
theorem C2_getter_after_setter :
    (∀ (p : ConfidenceProperty) (i : Int), (p.SetConfidence i).1.GetConfidence = i) ∧
    (∀ (p : properties.LangProperty) (s : GoString), (p.SetLang s).1.GetLang = s) ∧
    (∀ (o : baseobject.LangProperty) (s : GoString), (o.SetLang s).1.GetLang = s) ∧
    (∀ (p : DescriptionProperty) (s : GoString), (p.SetDescription s).1.GetDescription = s) ∧
    (∀ (p : NameProperty) (s : GoString), (p.SetName s).1.GetName = s) ∧
    (∀ (T I B : Type) (p : BaseProperties T I B) (s : GoString),
      (p.SetCreatedByRef s).1.GetCreatedByRef = s) ∧
    (∀ (T I B : Type) (p : BaseProperties T I B) (s : GoString),
      (p.SetSpecVersion s).1.GetSpecVersion = s) ∧
    (∀ (T I B : Type) (p : BaseProperties T I B) (i : Int),
      (p.SetObjectID i).1.GetObjectID = i) ∧
    (∀ (r : Discovery) (s : GoString), (r.SetContact s).1.GetContact = s) ∧
    (∀ (r : Discovery) (s : GoString), (r.SetDefault s).1.GetDefault = s) ∧
    (∀ (r : Discovery) (s : GoString), (r.SetDescription s).1.GetDescription = s) := by
  refine ⟨?_, ?_, ?_, ?_, ?_, ?_, ?_, ?_, ?_, ?_, ?_⟩ <;> intros <;> rfl

/-- C3. Every setter reports success unconditionally: for every receiver
state and every argument the returned error is nil. -/
theorem C3_setters_return_nil :
    (∀ (T I B : Type) (p : BaseProperties T I B) (i : Int), (p.SetObjectID i).2 = none) ∧
    (∀ (T I B : Type) (p : BaseProperties T I B), p.SetSpecVersion20.2 = none) ∧
    (∀ (T I B : Type) (p : BaseProperties T I B), p.SetSpecVersion21.2 = none) ∧
    (∀ (T I B : Type) (p : BaseProperties T I B) (s : GoString), (p.SetSpecVersion s).2 = none) ∧
    (∀ (T I B : Type) (p : BaseProperties T I B) (s : GoString), (p.SetCreatedByRef s).2 = none) ∧
    (∀ (p : ConfidenceProperty) (i : Int), (p.SetConfidence i).2 = none) ∧
    (∀ (p : DescriptionProperty) (s : GoString), (p.SetDescription s).2 = none) ∧
    (∀ (p : properties.LangProperty) (s : GoString), (p.SetLang s).2 = none) ∧
    (∀ (o : baseobject.LangProperty) (s : GoString), (o.SetLang s).2 = none) ∧
    (∀ (p : NameProperty) (s : GoString), (p.SetName s).2 = none) ∧
    (∀ (p : RevokedProperty), p.SetRevoked.2 = none) ∧
    (∀ (r : Discovery) (s : GoString), (r.SetContact s).2 = none) ∧
    (∀ (r : Discovery) (s : GoString), (r.SetDefault s).2 = none) ∧
    (∀ (r : Discovery) (s : GoString), (r.AddAPIRoot s).2 = none) ∧
    (∀ (r : Discovery) (s : GoString), (r.SetDescription s).2 = none) := by
  refine ⟨?_, ?_, ?_, ?_, ?_, ?_, ?_, ?_, ?_, ?_, ?_, ?_, ?_, ?_, ?_⟩ <;> intros <;> rfl

/-- A call on a revoked unit leaves it revoked. -/
theorem RevokedProperty.step_revoked (p : RevokedProperty) (op : RevokedOp)
    (h : p.GetRevoked = true) : (p.step op).GetRevoked = true := by
  cases op
  · rfl
  · exact h

/-- A sequence of calls on a revoked unit leaves it revoked. -/
theorem RevokedProperty.run_revoked (ops : List RevokedOp) :
    ∀ p : RevokedProperty, p.GetRevoked = true → (p.run ops).GetRevoked = true := by
  induction ops with
  | nil => intro p h; exact h
  | cons op ops ih =>
    intro p h
    exact ih (p.step op) (RevokedProperty.step_revoked p op h)

/-- C4. Revocation is one-directional: `GetRevoked` is true right after
`SetRevoked`, it is still true after any further finite sequence of
`SetRevoked` and `GetRevoked` calls, and no single call of the unit takes a
true flag to false. -/
theorem C4_revocation_one_directional :
    (∀ p : RevokedProperty, p.SetRevoked.1.GetRevoked = true) ∧
    (∀ (p : RevokedProperty) (ops : List RevokedOp),
      (p.SetRevoked.1.run ops).GetRevoked = true) ∧
    (∀ (p : RevokedProperty) (op : RevokedOp),
      ¬ (p.GetRevoked = true ∧ (p.step op).GetRevoked = false)) := by
  refine ⟨fun _ => rfl, fun p ops => RevokedProperty.run_revoked ops _ rfl, ?_⟩
  rintro p op ⟨h, h2⟩
  rw [RevokedProperty.step_revoked p op h] at h2
  exact Bool.noConfusion h2

/-- The state after a sequence of version setters ending in `op` has the
string `op` writes. -/
theorem BaseProperties.runSpecVersion_concat {T I B : Type} (p : BaseProperties T I B)
    (ops : List SpecVersionOp) (op : SpecVersionOp) :
    (p.runSpecVersion (ops ++ [op])).GetSpecVersion = op.written := by
  unfold BaseProperties.runSpecVersion
  rw [List.foldl_append]
  cases op <;> rfl

/-- C5. The three specification-version setters write the same field and the
last call wins: `SetSpecVersion20` is `SetSpecVersion("2.0")`,
`SetSpecVersion21` is `SetSpecVersion("2.1")`, and after any finite sequence
of calls `GetSpecVersion` is the string written by the final call, whatever
the starting state and the earlier calls were. -/
theorem C5_spec_version_last_call_wins :
    (∀ (T I B : Type) (p : BaseProperties T I B),
      p.SetSpecVersion20 = p.SetSpecVersion "2.0" ∧
      p.SetSpecVersion21 = p.SetSpecVersion "2.1") ∧
    (∀ (T I B : Type) (p : BaseProperties T I B) (ops : List SpecVersionOp)
      (op : SpecVersionOp),
      (p.runSpecVersion (ops ++ [op])).GetSpecVersion = op.written) ∧
    (∀ (T I B : Type) (p q : BaseProperties T I B) (ops ops2 : List SpecVersionOp)
      (op : SpecVersionOp),
      (p.runSpecVersion (ops ++ [op])).GetSpecVersion
        = (q.runSpecVersion (ops2 ++ [op])).GetSpecVersion) := by
  refine ⟨fun _ _ _ _ => ⟨rfl, rfl⟩, ?_, ?_⟩
  · intro T I B p ops op
    exact BaseProperties.runSpecVersion_concat p ops op
  · intro T I B p q ops ops2 op
    rw [BaseProperties.runSpecVersion_concat, BaseProperties.runSpecVersion_concat]

/-- C6. `New()` returns a zero-valued `Discovery`: the title and description
units are empty, `GetContact()` and `GetDefault()` return the empty string,
and `APIRoots` is the nil slice, not an allocated empty one. -/
theorem C6_New_zero_valued :
    New.TitleProperty.Title = "" ∧
    New.GetDescription = "" ∧
    New.GetContact = "" ∧
    New.GetDefault = "" ∧
    New.APIRoots = none ∧
    New.APIRoots ≠ StringSlice.make0 ∧
    New.APIRoots.len = 0 := by
  refine ⟨rfl, rfl, rfl, rfl, rfl, ?_, rfl⟩
  intro h
  exact Option.noConfusion h


/-! ### UTF-8 -/

namespace utf8

/-- The code point of the rune made from a valid code point. -/
theorem toNat_ofNat_valid (n : Nat) (h : n < 0xD800 ∨ (0xDFFF < n ∧ n < 0x110000)) :
    (Char.ofNat n).toNat = n := by
  have hv : n.isValidChar := h
  simp only [Char.ofNat, hv, dite_true, Char.ofNatAux, Char.toNat]
  rfl

/-- A byte is the byte made of its value. -/
theorem byte_eq (n : Nat) (b : Byte) (h : n = b.val) : (Fin.ofNat n : Byte) = b := by
  apply Fin.ext
  show n % 256 = b.val
  have := b.isLt
  omega

/-- Encoding the rune decoded at the head of a byte sequence gives back the
bytes it took, unless the head is invalid. -/
theorem EncodeRune_DecodeRune (b : Byte) (t : List Byte)
    (h : DecodeRune (b :: t) ≠ (0xFFFD, 1)) :
    EncodeRune (Char.ofNat (DecodeRune (b :: t)).1) = (b :: t).take (DecodeRune (b :: t)).2 ∧
    1 ≤ (DecodeRune (b :: t)).2 := by
  have hb := b.isLt
  by_cases h1 : b.val < 0x80
  · simp only [DecodeRune, h1, if_true] at h ⊢
    have e := toNat_ofNat_valid b.val (by omega)
    simp only [EncodeRune, e, h1, if_true, List.take_succ_cons, List.take_zero]
    exact ⟨by rw [byte_eq _ b rfl], le_refl _⟩
  by_cases h2 : b.val < 0xC2
  · simp [DecodeRune, h1, h2] at h
  by_cases h3 : b.val < 0xE0
  · rcases t with _ | ⟨b1, t1⟩
    · simp [DecodeRune, h1, h2, h3] at h
    by_cases hc : cont b1.val = true
    · have hb1 := b1.isLt
      simp only [DecodeRune, h1, h2, h3, hc, if_true, if_false] at h ⊢
      simp only [cont, Bool.and_eq_true, decide_eq_true_eq] at hc
      have e := toNat_ofNat_valid ((b.val - 0xC0) * 64 + (b1.val - 0x80)) (by omega)
      simp only [EncodeRune, e]
      rw [if_neg (by omega), if_pos (by omega), byte_eq _ b (by omega),
        byte_eq _ b1 (by omega)]
      exact ⟨rfl, by omega⟩
    · simp [DecodeRune, h1, h2, h3, hc] at h
  by_cases h4 : b.val < 0xF0
  · rcases t with _ | ⟨b1, _ | ⟨b2, t2⟩⟩
    · simp [DecodeRune, h1, h2, h3, h4] at h
    · simp [DecodeRune, h1, h2, h3, h4] at h
    by_cases hc : (lo b.val ≤ b1.val && b1.val ≤ hi b.val && cont b2.val) = true
    · have hb1 := b1.isLt
      have hb2 := b2.isLt
      simp only [DecodeRune, h1, h2, h3, h4, hc, if_true, if_false] at h ⊢
      simp only [cont, lo, hi, Bool.and_eq_true, decide_eq_true_eq] at hc
      obtain ⟨⟨hlo, hhi⟩, hc2, hc3⟩ := hc
      have e := toNat_ofNat_valid
        ((b.val - 0xE0) * 4096 + (b1.val - 0x80) * 64 + (b2.val - 0x80))
        (by split_ifs at hlo hhi <;> omega)
      simp only [EncodeRune, e]
      rw [if_neg (by split_ifs at hlo hhi <;> omega), if_neg (by split_ifs at hlo hhi <;> omega),
        if_pos (by split_ifs at hlo hhi <;> omega),
        byte_eq _ b (by split_ifs at hlo hhi <;> omega),
        byte_eq _ b1 (by split_ifs at hlo hhi <;> omega),
        byte_eq _ b2 (by split_ifs at hlo hhi <;> omega)]
      exact ⟨rfl, by omega⟩
    · simp [DecodeRune, h1, h2, h3, h4, hc] at h
  by_cases h5 : b.val < 0xF5
  · rcases t with _ | ⟨b1, _ | ⟨b2, _ | ⟨b3, t3⟩⟩⟩
    · simp [DecodeRune, h1, h2, h3, h4, h5] at h
    · simp [DecodeRune, h1, h2, h3, h4, h5] at h
    · simp [DecodeRune, h1, h2, h3, h4, h5] at h
    by_cases hc : (lo b.val ≤ b1.val && b1.val ≤ hi b.val && cont b2.val && cont b3.val) = true
    · have hb1 := b1.isLt
      have hb2 := b2.isLt
      have hb3 := b3.isLt
      simp only [DecodeRune, h1, h2, h3, h4, h5, hc, if_true, if_false] at h ⊢
      simp only [cont, lo, hi, Bool.and_eq_true, decide_eq_true_eq] at hc
      obtain ⟨⟨⟨hlo, hhi⟩, hc2, hc3⟩, hc4, hc5⟩ := hc
      have e := toNat_ofNat_valid
        ((b.val - 0xF0) * 262144 + (b1.val - 0x80) * 4096 + (b2.val - 0x80) * 64
          + (b3.val - 0x80))
        (by split_ifs at hlo hhi <;> omega)
      simp only [EncodeRune, e]
      rw [if_neg (by split_ifs at hlo hhi <;> omega), if_neg (by split_ifs at hlo hhi <;> omega),
        if_neg (by split_ifs at hlo hhi <;> omega),
        byte_eq _ b (by split_ifs at hlo hhi <;> omega),
        byte_eq _ b1 (by split_ifs at hlo hhi <;> omega),
        byte_eq _ b2 (by split_ifs at hlo hhi <;> omega),
        byte_eq _ b3 (by split_ifs at hlo hhi <;> omega)]
      exact ⟨rfl, by omega⟩
    · simp [DecodeRune, h1, h2, h3, h4, h5, hc] at h
  · simp [DecodeRune, h1, h2, h3, h4, h5] at h

/-- Encoding the runes of a valid byte sequence gives back the sequence. -/
theorem flatMap_runes (fuel : Nat) :
    ∀ bs : List Byte, bs.length ≤ fuel → valid fuel bs = true →
      (runes fuel bs).flatMap EncodeRune = bs := by
  induction fuel with
  | zero =>
    intro bs hl _
    have : bs = [] := List.length_eq_zero.mp (by omega)
    subst this
    rfl
  | succ fuel ih =>
    intro bs hl hv
    cases bs with
    | nil => rfl
    | cons b t =>
      simp only [valid, Bool.and_eq_true, Bool.not_eq_true', beq_eq_false_iff_ne, ne_eq] at hv
      obtain ⟨he, hrest⟩ := EncodeRune_DecodeRune b t hv.1
      simp only [runes, List.flatMap_cons, he]
      rw [ih _ (by simp only [List.length_drop, List.length_cons] at hl ⊢; omega) hv.2]
      exact List.take_append_drop _ _

end utf8

/-- A Go string that is valid UTF-8 is the UTF-8 of its text. -/
theorem GoString.ofString_toText (b : GoString) (h : b.Valid = true) :
    GoString.ofString b.toText = b := by
  cases b with
  | mk bs =>
    simp only [GoString.ofString, GoString.toText, GoString.mk.injEq]
    exact utf8.flatMap_runes _ bs (le_refl _) h


/-- A Go string that is valid UTF-8 comes back from JSON as it is. -/
theorem GoString.viaJSON_of_valid (b : GoString) (h : b.Valid = true) : b.viaJSON = b :=
  GoString.ofString_toText b h

/-- A list of valid Go strings comes back from JSON as it is. -/
theorem GoString.map_viaJSON_of_valid (l : List GoString) (h : ∀ s ∈ l, s.Valid = true) :
    l.map GoString.viaJSON = l := by
  induction l with
  | nil => rfl
  | cons s l ih =>
    rw [List.map_cons, GoString.viaJSON_of_valid s (h s (List.mem_cons_self _ _)),
      ih (fun t ht => h t (List.mem_cons_of_mem _ ht))]
/-! ### The encoder on the concrete structs -/

namespace json

/-- What an `omitempty` string field emits. -/
theorem emit_stringField {α : Type} (k : String) (get : α → GoString) (set : GoString → α → α)
    (x : α) :
    ((stringField k true get set).emit x).toList
      = if get x = "" then [] else [(k, Value.elem (.str (get x).toText))] := by
  by_cases h : get x = "" <;> simp [Field.emit, stringField, h]

/-- What an `omitempty` integer field emits. -/
theorem emit_intField {α : Type} (k : String) (get : α → Int) (set : Int → α → α) (x : α) :
    ((intField k true get set).emit x).toList
      = if get x = 0 then [] else [(k, Value.elem (.num (get x)))] := by
  by_cases h : get x = 0 <;> simp [Field.emit, intField, h]

/-- What an `omitempty` boolean field emits. -/
theorem emit_boolField {α : Type} (k : String) (get : α → Bool) (set : Bool → α → α) (x : α) :
    ((boolField k true get set).emit x).toList
      = if get x = true then [(k, Value.elem (.bool true))] else [] := by
  cases h : get x <;> simp [Field.emit, boolField, h]

/-- What an `omitempty` field of strings emits. -/
theorem emit_stringsField {α : Type} (k : String) (get : α → StringSlice)
    (set : StringSlice → α → α) (x : α) :
    ((stringsField k true get set).emit x).toList
      = if (get x).elems = [] then [] else [(k, Value.arr ((get x).elems.map fun s => Elem.str s.toText))] := by
  cases h : get x with
  | none => simp [Field.emit, stringsField, h, StringSlice.len, StringSlice.elems]
  | some l =>
    by_cases hl : l = [] <;>
      simp [Field.emit, stringsField, h, StringSlice.len, StringSlice.elems, hl]

/-- A promoted field emits what the field emits for the embedded struct. -/
theorem emit_embed {α β : Type} (proj : α → β) (upd : β → α → α) (f : Field β) (x : α) :
    (Field.embed proj upd f).emit x = f.emit (proj x) := rfl

/-- The encoder visits the selected fields one by one. -/
theorem filterMap_toList {α β : Type} (g : α → Option β) :
    ∀ l : List α, l.filterMap g = (l.map fun a => (g a).toList).flatten := by
  intro l
  induction l with
  | nil => rfl
  | cons a l ih =>
    cases h : g a <;> simp [List.filterMap_cons, h, ih]

/-- Membership in the selected fields. -/
theorem mem_selected {α : Type} {fs : List (Field α)} {f : Field α} :
    f ∈ selected fs ↔ f ∈ fs ∧ dominant fs f = true := by
  simp [selected, List.mem_filter]

/-- A dominant field has the least depth among the fields of its name. -/
theorem dominant_depth_le {α : Type} {fs : List (Field α)} {f g : Field α}
    (h : dominant fs f = true) (hg : g ∈ fs) (hn : g.name = f.name) : f.depth ≤ g.depth := by
  unfold dominant at h
  simp only [Bool.and_eq_true, List.all_eq_true] at h
  have h1 := h.1 g (by simp [List.mem_filter, hg, hn])
  simpa using h1

/-- A promoted field lies deeper than the struct's own fields. -/
theorem depth_pos_of_mem_embed {α β : Type} {proj : α → β} {upd : β → α → α}
    {l : List (Field β)} {f : Field α} (h : f ∈ embed proj upd l) : 0 < f.depth := by
  simp only [embed, List.mem_map] at h
  obtain ⟨g, _, rfl⟩ := h
  simp [Field.embed]

/-- The key a field emits is its name. -/
theorem emit_key {α : Type} {f : Field α} {x : α} {kv : String × Value}
    (h : f.emit x = some kv) : kv.1 = f.name := by
  unfold Field.emit at h
  split at h
  · exact Option.noConfusion h
  · cases h; rfl

/-- A field of depth 0 whose name no other field of depth 0 bears is dominant. -/
theorem dominant_of_top {α : Type} (A C : List (Field α)) (f0 : Field α) (h0 : f0.depth = 0)
    (hAC : ∀ g ∈ A ++ C, g.name = f0.name → 0 < g.depth) :
    dominant (A ++ f0 :: C) f0 = true := by
  have hA : ∀ g ∈ A, g.name = f0.name → 0 < g.depth :=
    fun g hg => hAC g (List.mem_append_left _ hg)
  have hC : ∀ g ∈ C, g.name = f0.name → 0 < g.depth :=
    fun g hg => hAC g (List.mem_append_right _ hg)
  have key : ∀ L : List (Field α), (∀ g ∈ L, g.name = f0.name → 0 < g.depth) →
      (L.filter (fun g => g.name == f0.name)).filter (fun g => g.depth == f0.depth) = [] := by
    intro L hL
    rw [List.filter_filter, List.filter_eq_nil_iff]
    intro g hg
    simp only [Bool.and_eq_true, beq_iff_eq, not_and]
    intro hd hn
    have := hL g hg hn
    omega
  unfold dominant
  simp only [Bool.and_eq_true, List.all_eq_true, Bool.or_eq_true]
  refine ⟨fun g _ => by simp [h0], Or.inl ?_⟩
  rw [List.filter_append, List.filter_append, key A hA]
  simp only [List.filter_cons, beq_self_eq_true, if_true, List.nil_append]
  rw [key C hC]
  rfl

/-- Under the same condition the members with the field's key are what the
field itself emits. -/
theorem members_Marshal_of_top {α : Type} (A C : List (Field α)) (f0 : Field α)
    (h0 : f0.depth = 0) (hAC : ∀ g ∈ A ++ C, g.name = f0.name → 0 < g.depth) (x : α) :
    members (Marshal (A ++ f0 :: C) x) f0.name = (f0.emit x).toList := by
  have hdom := dominant_of_top A C f0 h0 hAC
  have key : ∀ L : List (Field α), (∀ g ∈ L, g ∈ A ++ C) →
      ((L.filter (dominant (A ++ f0 :: C))).filterMap (Field.emit x)).filter
        (fun kv => kv.1 == f0.name) = [] := by
    intro L hL
    rw [List.filter_eq_nil_iff]
    intro kv hkv
    simp only [List.mem_filterMap, List.mem_filter] at hkv
    obtain ⟨g, ⟨hgL, hgd⟩, hge⟩ := hkv
    simp only [beq_iff_eq]
    intro hk
    have hn : g.name = f0.name := by rw [← emit_key hge]; exact hk
    have h1 := hAC g (hL g hgL) hn
    have h2 := dominant_depth_le hgd (g := f0) (by simp) hn.symm
    omega
  unfold members Marshal selected
  rw [List.filter_append, List.filterMap_append, List.filter_append,
    key A (fun g hg => List.mem_append_left _ hg)]
  simp only [List.filter_cons, hdom, if_true, List.filterMap_cons, List.nil_append]
  cases he : f0.emit x with
  | none =>
    simp only [Option.toList]
    exact key C (fun g hg => List.mem_append_right _ hg)
  | some kv =>
    have hk := emit_key he
    simp only [List.filter_cons, hk, beq_self_eq_true, if_true, Option.toList]
    rw [key C (fun g hg => List.mem_append_right _ hg)]

/-- The encoder reads a struct only through its fields. -/
theorem Marshal_congr {α : Type} (fs : List (Field α)) (x y : α)
    (h : ∀ f ∈ fs, f.isEmpty x = f.isEmpty y ∧ f.encode x = f.encode y) :
    Marshal fs x = Marshal fs y := by
  unfold Marshal
  apply List.filterMap_congr
  intro f hf
  have hf2 := (mem_selected.mp hf).1
  unfold Field.emit
  rw [(h f hf2).1, (h f hf2).2]

/-- Every member of the document is emitted by a selected field. -/
theorem mem_Marshal {α : Type} {fs : List (Field α)} {x : α} {kv : String × Value} :
    kv ∈ Marshal fs x ↔ ∃ f ∈ selected fs, f.emit x = some kv := by
  simp [Marshal, List.mem_filterMap]

end json

/-- No field of `Discovery` is hidden by another. -/
theorem Discovery.selected_fields : json.selected Discovery.fields = Discovery.fields := rfl

/-- The document of a `Discovery`: one optional member per field, in
declaration order. -/
theorem Discovery.Marshal_eq (d : Discovery) :
    d.Marshal =
      (if d.TitleProperty.Title = "" then []
        else [("title", json.Value.elem (.str d.TitleProperty.Title.toText))])
      ++ ((if d.DescriptionProperty.Description = "" then []
        else [("description", json.Value.elem (.str d.DescriptionProperty.Description.toText))])
      ++ ((if d.Contact = "" then [] else [("contact", json.Value.elem (.str d.Contact.toText))])
      ++ ((if d.Default = "" then [] else [("default", json.Value.elem (.str d.Default.toText))])
      ++ (if d.APIRoots.elems = [] then []
        else [("api_roots", json.Value.arr (d.APIRoots.elems.map fun s => json.Elem.str s.toText))])))) := by
  unfold Discovery.Marshal json.Marshal
  rw [Discovery.selected_fields, json.filterMap_toList]
  simp only [Discovery.fields, TitleProperty.fields, DescriptionProperty.fields, json.embed,
    List.map, List.append, List.cons_append, List.nil_append, List.flatten, json.emit_embed,
    json.emit_stringField, json.emit_stringsField, List.append_nil]

namespace properties

variable {T I B : Type}

/-- The fields of `BaseProperties` around `SpecVersion`. -/
theorem BaseProperties.fields_at_SpecVersion (tf : List (json.Field T))
    (idf : List (json.Field I)) (bf : List (json.Field B)) :
    BaseProperties.fields tf idf bf
      = json.embed (fun p => p.TypeProperty) (fun t p => { p with TypeProperty := t }) tf
        ++ BaseProperties.SpecVersionField
          :: (json.embed (fun p => p.IDProperty) (fun i p => { p with IDProperty := i }) idf
            ++ BaseProperties.CreatedByRefField
              :: json.embed (fun p => p.BaseTimestampProperties)
                  (fun b p => { p with BaseTimestampProperties := b }) bf) := by
  simp [BaseProperties.fields, json.skipped]

/-- The fields of `BaseProperties` around `CreatedByRef`. -/
theorem BaseProperties.fields_at_CreatedByRef (tf : List (json.Field T))
    (idf : List (json.Field I)) (bf : List (json.Field B)) :
    BaseProperties.fields tf idf bf
      = (json.embed (fun p => p.TypeProperty) (fun t p => { p with TypeProperty := t }) tf
        ++ BaseProperties.SpecVersionField
          :: json.embed (fun p => p.IDProperty) (fun i p => { p with IDProperty := i }) idf)
        ++ BaseProperties.CreatedByRefField
              :: json.embed (fun p => p.BaseTimestampProperties)
                  (fun b p => { p with BaseTimestampProperties := b }) bf := by
  simp [BaseProperties.fields, json.skipped]

/-- Every field of `BaseProperties` is `SpecVersion`, `CreatedByRef` or a
promoted field of an embedded struct. -/
theorem BaseProperties.mem_fields (tf : List (json.Field T)) (idf : List (json.Field I))
    (bf : List (json.Field B)) (g : json.Field (BaseProperties T I B))
    (hg : g ∈ BaseProperties.fields tf idf bf) :
    g = BaseProperties.SpecVersionField ∨ g = BaseProperties.CreatedByRefField ∨
    g ∈ json.embed (fun p => p.TypeProperty) (fun t p => { p with TypeProperty := t }) tf ∨
    g ∈ json.embed (fun p => p.IDProperty) (fun i p => { p with IDProperty := i }) idf ∨
    g ∈ json.embed (fun p => p.BaseTimestampProperties)
        (fun b p => { p with BaseTimestampProperties := b }) bf := by
  simp only [BaseProperties.fields, json.skipped, List.mem_append, List.mem_singleton,
    List.not_mem_nil, false_or] at hg
  tauto

end properties

namespace properties

variable {T I B : Type}

/-- No other field of depth 0 is named `spec_version`. -/
theorem BaseProperties.SpecVersion_top (tf : List (json.Field T)) (idf : List (json.Field I))
    (bf : List (json.Field B)) :
    ∀ g ∈ json.embed (fun p => p.TypeProperty) (fun t p => { p with TypeProperty := t }) tf
        ++ (json.embed (fun p => p.IDProperty) (fun i p => { p with IDProperty := i }) idf
            ++ BaseProperties.CreatedByRefField
              :: json.embed (fun p => p.BaseTimestampProperties)
                  (fun b p => { p with BaseTimestampProperties := b }) bf),
      g.name = (BaseProperties.SpecVersionField (T := T) (I := I) (B := B)).name →
        0 < g.depth := by
  intro g hg hn
  simp only [List.mem_append, List.mem_cons] at hg
  rcases hg with h | h | h | h
  · exact json.depth_pos_of_mem_embed h
  · exact json.depth_pos_of_mem_embed h
  · subst h
    simp [BaseProperties.CreatedByRefField, BaseProperties.SpecVersionField,
      json.stringField] at hn
  · exact json.depth_pos_of_mem_embed h

/-- No other field of depth 0 is named `created_by_ref`. -/
theorem BaseProperties.CreatedByRef_top (tf : List (json.Field T)) (idf : List (json.Field I))
    (bf : List (json.Field B)) :
    ∀ g ∈ (json.embed (fun p => p.TypeProperty) (fun t p => { p with TypeProperty := t }) tf
        ++ BaseProperties.SpecVersionField
          :: json.embed (fun p => p.IDProperty) (fun i p => { p with IDProperty := i }) idf)
        ++ json.embed (fun p => p.BaseTimestampProperties)
                  (fun b p => { p with BaseTimestampProperties := b }) bf,
      g.name = (BaseProperties.CreatedByRefField (T := T) (I := I) (B := B)).name →
        0 < g.depth := by
  intro g hg hn
  simp only [List.mem_append, List.mem_cons] at hg
  rcases hg with (h | h | h) | h
  · exact json.depth_pos_of_mem_embed h
  · subst h
    simp [BaseProperties.CreatedByRefField, BaseProperties.SpecVersionField,
      json.stringField] at hn
  · exact json.depth_pos_of_mem_embed h
  · exact json.depth_pos_of_mem_embed h

/-- The members with key `spec_version` in the document of a `BaseProperties`. -/
theorem BaseProperties.members_spec_version (tf : List (json.Field T))
    (idf : List (json.Field I)) (bf : List (json.Field B)) (p : BaseProperties T I B) :
    json.members (BaseProperties.Marshal tf idf bf p) "spec_version"
      = if p.SpecVersion = "" then []
        else [("spec_version", json.Value.elem (.str p.SpecVersion.toText))] := by
  unfold BaseProperties.Marshal
  rw [BaseProperties.fields_at_SpecVersion]
  have h := json.members_Marshal_of_top _ _ BaseProperties.SpecVersionField rfl
    (BaseProperties.SpecVersion_top tf idf bf) p
  rw [show (BaseProperties.SpecVersionField (T := T) (I := I) (B := B)).name = "spec_version"
    from rfl] at h
  rw [h]
  exact json.emit_stringField _ _ _ p

/-- The members with key `created_by_ref` in the document of a `BaseProperties`. -/
theorem BaseProperties.members_created_by_ref (tf : List (json.Field T))
    (idf : List (json.Field I)) (bf : List (json.Field B)) (p : BaseProperties T I B) :
    json.members (BaseProperties.Marshal tf idf bf p) "created_by_ref"
      = if p.CreatedByRef = "" then []
        else [("created_by_ref", json.Value.elem (.str p.CreatedByRef.toText))] := by
  unfold BaseProperties.Marshal
  rw [BaseProperties.fields_at_CreatedByRef]
  have h := json.members_Marshal_of_top _ _ BaseProperties.CreatedByRefField rfl
    (BaseProperties.CreatedByRef_top tf idf bf) p
  rw [show (BaseProperties.CreatedByRefField (T := T) (I := I) (B := B)).name
    = "created_by_ref" from rfl] at h
  rw [h]
  exact json.emit_stringField _ _ _ p

/-- The document of a `BaseProperties` does not depend on `ObjectID`. -/
theorem BaseProperties.Marshal_ObjectID (tf : List (json.Field T)) (idf : List (json.Field I))
    (bf : List (json.Field B)) (p : BaseProperties T I B) (i : Int) :
    BaseProperties.Marshal tf idf bf { p with ObjectID := i }
      = BaseProperties.Marshal tf idf bf p := by
  unfold BaseProperties.Marshal
  apply json.Marshal_congr
  intro f hf
  rcases BaseProperties.mem_fields tf idf bf f hf with h | h | h | h | h
  · subst h; exact ⟨rfl, rfl⟩
  · subst h; exact ⟨rfl, rfl⟩
  all_goals
    simp only [json.embed, List.mem_map] at h
    obtain ⟨g, _, rfl⟩ := h
    exact ⟨rfl, rfl⟩

/-- The keys of the document of a `BaseProperties` are names of its tagged
fields or of fields of the embedded structs. -/
theorem BaseProperties.keys_Marshal_subset (tf : List (json.Field T)) (idf : List (json.Field I))
    (bf : List (json.Field B)) (p : BaseProperties T I B) :
    json.keys (BaseProperties.Marshal tf idf bf p)
      ⊆ "spec_version" :: "created_by_ref"
          :: (tf.map (fun f => f.name) ++ idf.map (fun f => f.name)
              ++ bf.map (fun f => f.name)) := by
  intro k hk
  simp only [json.keys, List.mem_map] at hk
  obtain ⟨kv, hkv, rfl⟩ := hk
  obtain ⟨f, hf, he⟩ := json.mem_Marshal.mp hkv
  rw [json.emit_key he]
  have hf2 := (json.mem_selected.mp hf).1
  rcases BaseProperties.mem_fields tf idf bf f hf2 with h | h | h | h | h
  · subst h; simp [BaseProperties.SpecVersionField, json.stringField]
  · subst h; simp [BaseProperties.CreatedByRefField, json.stringField]
  all_goals
    simp only [json.embed, List.mem_map] at h
    obtain ⟨g, hg, rfl⟩ := h
    simp only [json.Field.embed, List.mem_cons, List.mem_append, List.mem_map]
  · exact Or.inr (Or.inr (Or.inl (Or.inl ⟨g, hg, rfl⟩)))
  · exact Or.inr (Or.inr (Or.inl (Or.inr ⟨g, hg, rfl⟩)))
  · exact Or.inr (Or.inr (Or.inr ⟨g, hg, rfl⟩))


end properties

namespace json

/-- The document of a struct with a single field. -/
theorem Marshal_singleton {α : Type} (f : Field α) (x : α) :
    Marshal [f] x = (f.emit x).toList := by
  have h : selected [f] = [f] := by
    simp [selected, dominant]
  unfold Marshal
  rw [h]
  cases he : f.emit x <;> simp [List.filterMap_cons, he]

end json

/-- The keys of the document of a `Discovery`. -/
theorem Discovery.keys_Marshal_iff (d : Discovery) :
    ("title" ∈ json.keys d.Marshal ↔ d.TitleProperty.Title ≠ "") ∧
    ("description" ∈ json.keys d.Marshal ↔ d.DescriptionProperty.Description ≠ "") ∧
    ("contact" ∈ json.keys d.Marshal ↔ d.Contact ≠ "") ∧
    ("default" ∈ json.keys d.Marshal ↔ d.Default ≠ "") ∧
    ("api_roots" ∈ json.keys d.Marshal ↔ d.APIRoots.elems ≠ []) := by
  rw [Discovery.Marshal_eq]
  by_cases h1 : d.TitleProperty.Title = "" <;>
    by_cases h2 : d.DescriptionProperty.Description = "" <;>
    by_cases h3 : d.Contact = "" <;> by_cases h4 : d.Default = "" <;>
    by_cases h5 : d.APIRoots.elems = [] <;>
    simp [json.keys, h1, h2, h3, h4, h5]


namespace json

/-! ### The decoder -/

/-- The field a key addresses is one of the fields searched. -/
theorem mem_of_findField {α : Type} {sel : List (Field α)} {k : String} {g : Field α}
    (h : findField sel k = some g) : g ∈ sel := by
  unfold findField at h
  split at h
  · next f hf =>
    cases h
    exact List.mem_of_find?_eq_some hf
  · exact List.mem_of_find?_eq_some h

/-- A key written by the encoder addresses a selected field of that name. -/
theorem findField_of_mem_Marshal {α : Type} {fs : List (Field α)} {x : α}
    {kv : String × Value} (h : kv ∈ Marshal fs x) :
    ∃ g, findField (selected fs) kv.1 = some g ∧ g ∈ selected fs ∧ g.name = kv.1 := by
  obtain ⟨f, hf, he⟩ := mem_Marshal.mp h
  have hk := emit_key he
  cases hfind : (selected fs).find? (fun f => f.name == kv.1) with
  | none =>
    rw [List.find?_eq_none] at hfind
    exact absurd (by simp [hk]) (hfind f hf)
  | some g =>
    refine ⟨g, ?_, List.mem_of_find?_eq_some hfind, ?_⟩
    · simp [findField, hfind]
    · simpa using List.find?_some hfind

/-- Decoding a member whose key addresses the field `g`. -/
theorem unmarshalMember_of_findField {α : Type} {grow : Nat → Nat} {sel : List (Field α)}
    {st : Decoding α} {kv : String × Value} {g : Field α}
    (h : findField sel kv.1 = some g) :
    unmarshalMember grow sel st kv
      = { value := (g.decode grow kv.2 (st.spare g.name) st.value).1
          spare := Function.update st.spare g.name
            (g.decode grow kv.2 (st.spare g.name) st.value).2.1
          err := if st.err.isSome then st.err
            else (g.decode grow kv.2 (st.spare g.name) st.value).2.2 } := by
  simp [unmarshalMember, h]

/-- What no field's decoder changes, decoding a document does not change. -/
theorem Unmarshal_preserves {α γ : Type} (obs : α → γ) (grow : Nat → Nat) (fs : List (Field α))
    (h : ∀ g ∈ fs, ∀ v sp y, obs (g.decode grow v sp y).1 = obs y) (doc : Document) (z : α) :
    obs (Unmarshal grow fs doc z).1 = obs z := by
  have key : ∀ (l : Document) (st : Decoding α),
      obs (l.foldl (unmarshalMember grow (selected fs)) st).value = obs st.value := by
    intro l
    induction l with
    | nil => intro st; rfl
    | cons kv l ih =>
      intro st
      rw [List.foldl_cons, ih]
      cases hf : findField (selected fs) kv.1 with
      | none => simp [unmarshalMember, hf]
      | some g =>
        rw [unmarshalMember_of_findField hf]
        exact h g (mem_selected.mp (mem_of_findField hf)).1 _ _ _
  exact key doc _

/-- Round trip of one observation `obs` of a struct through a field `f0` of
depth 0: if the other fields' decoders leave `obs` alone, `f0` decodes what it
emits to the observation `w`, and `f0` is omitted only when `obs` is `w` in
the target `z`, then decoding the document of `x` into `z` gives `w`. -/
theorem Unmarshal_Marshal_of_top {α γ : Type} (obs : α → γ) (grow : Nat → Nat)
    (A C : List (Field α)) (f0 : Field α) (h0 : f0.depth = 0)
    (hAC : ∀ g ∈ A ++ C, g.name = f0.name → 0 < g.depth)
    (hpres : ∀ g ∈ A ++ C, ∀ v sp y, obs (g.decode grow v sp y).1 = obs y)
    (x z : α) (w : γ)
    (hown : ∀ kv, f0.emit x = some kv → ∀ sp y, obs (f0.decode grow kv.2 sp y).1 = w)
    (hzero : f0.emit x = none → obs z = w) :
    obs (Unmarshal grow (A ++ f0 :: C) (Marshal (A ++ f0 :: C) x) z).1 = w := by
  have hmem := members_Marshal_of_top A C f0 h0 hAC x
  -- a member with another key leaves `obs`; a member with the key of `f0` sets it
  have step : ∀ kv ∈ Marshal (A ++ f0 :: C) x, ∀ st : Decoding α,
      obs (unmarshalMember grow (selected (A ++ f0 :: C)) st kv).value
        = if kv.1 = f0.name then w else obs st.value := by
    intro kv hkv st
    obtain ⟨g, hfind, hsel, hname⟩ := findField_of_mem_Marshal hkv
    rw [unmarshalMember_of_findField hfind]
    have hg := mem_selected.mp hsel
    by_cases hk : kv.1 = f0.name
    · rw [if_pos hk]
      have hkm : kv ∈ members (Marshal (A ++ f0 :: C) x) f0.name := by
        simp [members, List.mem_filter, hkv, hk]
      rw [hmem] at hkm
      have he : f0.emit x = some kv := by
        cases hx : f0.emit x with
        | none => rw [hx] at hkm; simp at hkm
        | some kv2 => rw [hx] at hkm; simp at hkm; rw [hkm]
      have hgf : g = f0 := by
        rcases List.mem_append.mp hg.1 with hA | hC
        · have h1 := hAC g (List.mem_append_left _ hA) (hname.trans hk)
          have h2 := dominant_depth_le hg.2 (g := f0) (by simp) (hname.trans hk).symm
          omega
        · rcases List.mem_cons.mp hC with rfl | hC
          · rfl
          · have h1 := hAC g (List.mem_append_right _ hC) (hname.trans hk)
            have h2 := dominant_depth_le hg.2 (g := f0) (by simp) (hname.trans hk).symm
            omega
      rw [hgf]
      exact hown kv he _ _
    · rw [if_neg hk]
      have hgAC : g ∈ A ++ C := by
        rcases List.mem_append.mp hg.1 with hA | hC
        · exact List.mem_append_left _ hA
        · rcases List.mem_cons.mp hC with rfl | hC
          · exact absurd hname.symm hk
          · exact List.mem_append_right _ hC
      exact hpres g hgAC _ _ _
  have key : ∀ (l : Document), (∀ kv ∈ l, kv ∈ Marshal (A ++ f0 :: C) x) →
      ∀ st : Decoding α,
      obs (l.foldl (unmarshalMember grow (selected (A ++ f0 :: C))) st).value
        = if (members l f0.name) = [] then obs st.value else w := by
    intro l
    induction l with
    | nil => intro _ st; rfl
    | cons kv l ih =>
      intro hl st
      rw [List.foldl_cons, ih (fun kv2 h2 => hl kv2 (List.mem_cons_of_mem _ h2)),
        step kv (hl kv (List.mem_cons_self _ _))]
      by_cases hk : kv.1 = f0.name
      · simp [members, List.filter_cons, hk]
      · have hf : List.filter (fun kv => kv.1 == f0.name) (kv :: l)
            = List.filter (fun kv => kv.1 == f0.name) l := by
          rw [List.filter_cons]
          simp [hk]
        simp only [members, hf, if_neg hk]
  unfold Unmarshal
  rw [key _ (fun _ h => h), hmem]
  cases he : f0.emit x with
  | none => simpa using hzero he
  | some kv => simp

/-- A promoted field's decoder changes only the embedded struct. -/
theorem embed_decode_preserves {α β γ : Type} (obs : α → γ) (grow : Nat → Nat) (proj : α → β)
    (upd : β → α → α) (hupd : ∀ b y, obs (upd b y) = obs y) (l : List (Field β)) :
    ∀ g ∈ embed proj upd l, ∀ v sp y, obs (g.decode grow v sp y).1 = obs y := by
  intro g hg v sp y
  simp only [embed, List.mem_map] at hg
  obtain ⟨f, _, rfl⟩ := hg
  exact hupd _ _

/-- A string field's decoder changes only what its setter changes. -/
theorem stringField_decode_preserves {α γ : Type} (obs : α → γ) (grow : Nat → Nat)
    (k : String) (o : Bool) (get : α → GoString) (set : GoString → α → α)
    (hset : ∀ s y, obs (set s y) = obs y) (v : Value) (sp : List GoString) (y : α) :
    obs ((stringField k o get set).decode grow v sp y).1 = obs y := by
  unfold stringField
  simp only
  split
  · exact hset _ _
  · rfl
  · rfl

/-- Decoding an optional member. -/
theorem foldl_ite {σ κ : Type} (f : σ → κ → σ) (st : σ) (c : Prop) [Decidable c] (kv : κ) :
    List.foldl f st (if c then [] else [kv]) = if c then st else f st kv := by
  split <;> rfl

end json

namespace json

/-- Writing the cell after the first `n` cells of a backing array. -/
theorem take_succ_set_cell (s : GoString) :
    ∀ (l : List GoString) (n : Nat), n < l.length →
      (l.set n s).take (n + 1) = l.take n ++ [s] := by
  intro l
  induction l with
  | nil => intro n h; simp at h
  | cons x l ih =>
    intro n h
    cases n with
    | zero => simp
    | succ n =>
      simp only [List.set_cons_succ, List.take_succ_cons, List.cons_append, List.cons.injEq,
        true_and]
      exact ih n (by simpa using h)

/-- Decoding the array that a list of Go strings was encoded to: no type
error, and the cells from `i` on are the strings as they come back from
JSON, whatever the cells held before. -/
theorem decodeCells_encoded (grow : Nat → Nat) (l : List GoString) :
    ∀ (cells : List GoString) (i : Nat), i ≤ cells.length →
      (decodeCells grow cells i (l.map fun s => Elem.str s.toText)).2 = false ∧
      (decodeCells grow cells i (l.map fun s => Elem.str s.toText)).1.take (i + l.length)
        = cells.take i ++ l.map GoString.viaJSON := by
  induction l with
  | nil =>
    intro cells i _
    simp [decodeCells]
  | cons s l ih =>
    intro cells i hi
    simp only [List.map_cons, decodeCells, List.length_cons]
    by_cases hlt : i < cells.length
    · simp only [hlt, if_true]
      have h := ih (cells.set i (GoString.ofString s.toText)) (i + 1)
        (by simp only [List.length_set]; omega)
      refine ⟨h.1, ?_⟩
      rw [show i + (l.length + 1) = i + 1 + l.length by omega, h.2,
        take_succ_set_cell _ _ _ hlt]
      simp [GoString.viaJSON]
    · simp only [hlt, if_false]
      have hM : i + 1 ≤ max (grow cells.length) (i + 1) := le_max_right _ _
      have hlen : i < (cells ++ List.replicate
          (max (grow cells.length) (i + 1) - cells.length) ("" : GoString)).length := by
        simp only [List.length_append, List.length_replicate]
        omega
      have h := ih ((cells ++ List.replicate
          (max (grow cells.length) (i + 1) - cells.length) ("" : GoString)).set i
            (GoString.ofString s.toText)) (i + 1)
        (by simp only [List.length_set]; omega)
      refine ⟨h.1, ?_⟩
      rw [show i + (l.length + 1) = i + 1 + l.length by omega, h.2,
        take_succ_set_cell _ _ _ hlen, List.take_append_of_le_length hi]
      simp [GoString.viaJSON]

end json

namespace properties

variable {T I B : Type}

/-- No decoder of a field of `BaseProperties` writes `ObjectID`. -/
theorem BaseProperties.decode_ObjectID (grow : Nat → Nat) (tf : List (json.Field T))
    (idf : List (json.Field I)) (bf : List (json.Field B)) :
    ∀ g ∈ BaseProperties.fields tf idf bf, ∀ v sp (y : BaseProperties T I B),
      (g.decode grow v sp y).1.ObjectID = y.ObjectID := by
  intro g hg v sp y
  rcases BaseProperties.mem_fields tf idf bf g hg with h | h | h | h | h
  · subst h
    refine json.stringField_decode_preserves (fun p => p.ObjectID) grow _ true _ _ ?_ v sp y
    intros; rfl
  · subst h
    refine json.stringField_decode_preserves (fun p => p.ObjectID) grow _ true _ _ ?_ v sp y
    intros; rfl
  · exact json.embed_decode_preserves (fun p => p.ObjectID) grow _ _ (by intros; rfl) _ g h v
      sp y
  · exact json.embed_decode_preserves (fun p => p.ObjectID) grow _ _ (by intros; rfl) _ g h v
      sp y
  · exact json.embed_decode_preserves (fun p => p.ObjectID) grow _ _ (by intros; rfl) _ g h v
      sp y

/-- Decoding the document of `p` gives `p.SpecVersion` as it comes back from
JSON. -/
theorem BaseProperties.roundtrip_SpecVersion (grow : Nat → Nat) (tf : List (json.Field T))
    (idf : List (json.Field I)) (bf : List (json.Field B)) (t0 : T) (i0 : I) (b0 : B)
    (p : BaseProperties T I B) :
    (BaseProperties.Unmarshal grow tf idf bf t0 i0 b0
      (BaseProperties.Marshal tf idf bf p)).1.SpecVersion = p.SpecVersion.viaJSON := by
  unfold BaseProperties.Unmarshal BaseProperties.Marshal
  rw [BaseProperties.fields_at_SpecVersion]
  apply json.Unmarshal_Marshal_of_top (fun q => q.SpecVersion) grow _ _
    BaseProperties.SpecVersionField rfl (BaseProperties.SpecVersion_top tf idf bf)
  · intro g hg v sp y
    simp only [List.mem_append, List.mem_cons] at hg
    rcases hg with h | h | h | h
    · exact json.embed_decode_preserves (fun q => q.SpecVersion) grow _ _ (by intros; rfl) _
        g h v sp y
    · exact json.embed_decode_preserves (fun q => q.SpecVersion) grow _ _ (by intros; rfl) _
        g h v sp y
    · subst h
      refine json.stringField_decode_preserves (fun q => q.SpecVersion) grow _ true _ _ ?_ v
        sp y
      intros; rfl
    · exact json.embed_decode_preserves (fun q => q.SpecVersion) grow _ _ (by intros; rfl) _
        g h v sp y
  · intro kv he sp y
    by_cases hs : p.SpecVersion = ""
    · simp [json.Field.emit, BaseProperties.SpecVersionField, json.stringField, hs] at he
    · simp [json.Field.emit, BaseProperties.SpecVersionField, json.stringField, hs] at he
      subst he
      rfl
  · intro he
    by_cases hs : p.SpecVersion = ""
    · rw [hs]; rfl
    · simp [json.Field.emit, BaseProperties.SpecVersionField, json.stringField, hs] at he

/-- Decoding the document of `p` gives `p.CreatedByRef` as it comes back from
JSON. -/
theorem BaseProperties.roundtrip_CreatedByRef (grow : Nat → Nat) (tf : List (json.Field T))
    (idf : List (json.Field I)) (bf : List (json.Field B)) (t0 : T) (i0 : I) (b0 : B)
    (p : BaseProperties T I B) :
    (BaseProperties.Unmarshal grow tf idf bf t0 i0 b0
      (BaseProperties.Marshal tf idf bf p)).1.CreatedByRef = p.CreatedByRef.viaJSON := by
  unfold BaseProperties.Unmarshal BaseProperties.Marshal
  rw [BaseProperties.fields_at_CreatedByRef]
  apply json.Unmarshal_Marshal_of_top (fun q => q.CreatedByRef) grow _ _
    BaseProperties.CreatedByRefField rfl (BaseProperties.CreatedByRef_top tf idf bf)
  · intro g hg v sp y
    simp only [List.mem_append, List.mem_cons] at hg
    rcases hg with (h | h | h) | h
    · exact json.embed_decode_preserves (fun q => q.CreatedByRef) grow _ _ (by intros; rfl) _
        g h v sp y
    · subst h
      refine json.stringField_decode_preserves (fun q => q.CreatedByRef) grow _ true _ _ ?_ v
        sp y
      intros; rfl
    · exact json.embed_decode_preserves (fun q => q.CreatedByRef) grow _ _ (by intros; rfl) _
        g h v sp y
    · exact json.embed_decode_preserves (fun q => q.CreatedByRef) grow _ _ (by intros; rfl) _
        g h v sp y
  · intro kv he sp y
    by_cases hs : p.CreatedByRef = ""
    · simp [json.Field.emit, BaseProperties.CreatedByRefField, json.stringField, hs] at he
    · simp [json.Field.emit, BaseProperties.CreatedByRefField, json.stringField, hs] at he
      subst he
      rfl
  · intro he
    by_cases hs : p.CreatedByRef = ""
    · rw [hs]; rfl
    · simp [json.Field.emit, BaseProperties.CreatedByRefField, json.stringField, hs] at he

end properties

/-! ### The decoder on `Discovery` -/

/-- Decoding a `title` member. -/
theorem Discovery.unmarshal_title (grow : Nat → Nat) (st : json.Decoding Discovery)
    (s : String) :
    json.unmarshalMember grow Discovery.fields st ("title", json.Value.elem (.str s))
      = { value := { st.value with TitleProperty := { Title := GoString.ofString s } }
          spare := Function.update st.spare "title" (st.spare "title")
          err := if st.err.isSome then st.err else none } :=
  rfl

/-- Decoding a `description` member. -/
theorem Discovery.unmarshal_description (grow : Nat → Nat) (st : json.Decoding Discovery)
    (s : String) :
    json.unmarshalMember grow Discovery.fields st ("description", json.Value.elem (.str s))
      = { value := { st.value with DescriptionProperty := { Description := GoString.ofString s } }
          spare := Function.update st.spare "description" (st.spare "description")
          err := if st.err.isSome then st.err else none } :=
  rfl

/-- Decoding a `contact` member. -/
theorem Discovery.unmarshal_contact (grow : Nat → Nat) (st : json.Decoding Discovery)
    (s : String) :
    json.unmarshalMember grow Discovery.fields st ("contact", json.Value.elem (.str s))
      = { value := { st.value with Contact := GoString.ofString s }
          spare := Function.update st.spare "contact" (st.spare "contact")
          err := if st.err.isSome then st.err else none } :=
  rfl

/-- Decoding a `default` member. -/
theorem Discovery.unmarshal_default (grow : Nat → Nat) (st : json.Decoding Discovery)
    (s : String) :
    json.unmarshalMember grow Discovery.fields st ("default", json.Value.elem (.str s))
      = { value := { st.value with Default := GoString.ofString s }
          spare := Function.update st.spare "default" (st.spare "default")
          err := if st.err.isSome then st.err else none } :=
  rfl

/-- Decoding an `api_roots` member that was encoded from a list with an
element: the slice is the list as it comes back from JSON, whatever the
backing array held. -/
theorem Discovery.unmarshal_api_roots (grow : Nat → Nat) (st : json.Decoding Discovery)
    (l : List GoString) (hl : l ≠ []) :
    (json.unmarshalMember grow Discovery.fields st
      ("api_roots", json.Value.arr (l.map fun s => json.Elem.str s.toText))).value
      = { st.value with APIRoots := some (l.map GoString.viaJSON) } ∧
    (json.unmarshalMember grow Discovery.fields st
      ("api_roots", json.Value.arr (l.map fun s => json.Elem.str s.toText))).err
      = if st.err.isSome then st.err else none := by
  have hd := json.decodeCells_encoded grow l
    (st.value.APIRoots.elems ++ st.spare "api_roots") 0 (Nat.zero_le _)
  have hne : (l.map fun s => json.Elem.str s.toText).isEmpty = false := by
    cases l with
    | nil => exact absurd rfl hl
    | cons a t => rfl
  have hv : (json.unmarshalMember grow Discovery.fields st
      ("api_roots", json.Value.arr (l.map fun s => json.Elem.str s.toText))).value
      = if (l.map fun s => json.Elem.str s.toText).isEmpty then
          { st.value with APIRoots := some [] }
        else { st.value with APIRoots := some ((json.decodeCells grow
            (st.value.APIRoots.elems ++ st.spare "api_roots") 0
            (l.map fun s => json.Elem.str s.toText)).1.take
              (l.map fun s => json.Elem.str s.toText).length) } := by
    show (if (l.map fun s => json.Elem.str s.toText).isEmpty then _ else _ : _ × _ × _).1 = _
    split <;> rfl
  have he : (json.unmarshalMember grow Discovery.fields st
      ("api_roots", json.Value.arr (l.map fun s => json.Elem.str s.toText))).err
      = if st.err.isSome then st.err
        else if (l.map fun s => json.Elem.str s.toText).isEmpty then none
        else if (json.decodeCells grow
            (st.value.APIRoots.elems ++ st.spare "api_roots") 0
            (l.map fun s => json.Elem.str s.toText)).2
          then json.typeError "api_roots" "string" else none := by
    show (if st.err.isSome then st.err
      else (if (l.map fun s => json.Elem.str s.toText).isEmpty then _ else _ : _ × _ × _).2.2) = _
    split
    · rfl
    · split <;> rfl
  constructor
  · rw [hv, hne]
    simp only [Bool.false_eq_true, if_false, List.length_map]
    have h2 := hd.2
    simp only [Nat.zero_add, List.take_zero, List.nil_append] at h2
    rw [h2]
  · rw [he, hne, hd.1]
    simp

/-- The empty Go string comes back from JSON as it is. -/
theorem GoString.viaJSON_empty : GoString.viaJSON "" = "" := rfl

/-- Decoding the document of a `Discovery` into a new one succeeds; every
string is the original as it comes back from JSON, and `APIRoots` is nil if
the original had no element. -/
theorem Discovery.Unmarshal_Marshal (grow : Nat → Nat) (d : Discovery) :
    Discovery.Unmarshal grow d.Marshal
      = ({ TitleProperty := { Title := d.TitleProperty.Title.viaJSON }
           DescriptionProperty := { Description := d.DescriptionProperty.Description.viaJSON }
           Contact := d.Contact.viaJSON
           Default := d.Default.viaJSON
           APIRoots := if d.APIRoots.elems = [] then none
             else some (d.APIRoots.elems.map GoString.viaJSON) }, none) := by
  unfold Discovery.Unmarshal json.Unmarshal
  rw [Discovery.selected_fields, Discovery.Marshal_eq]
  simp only [List.foldl_append, json.foldl_ite]
  rcases d with ⟨⟨t⟩, ⟨ds⟩, c, df, a⟩
  by_cases h5 : StringSlice.elems a = []
  · by_cases h1 : t = "" <;> by_cases h2 : ds = "" <;> by_cases h3 : c = "" <;>
      by_cases h4 : df = "" <;>
      simp [h1, h2, h3, h4, h5, Discovery.unmarshal_title, Discovery.unmarshal_description,
        Discovery.unmarshal_contact, Discovery.unmarshal_default, New, GoString.viaJSON,
        GoString.viaJSON_empty] <;> rfl
  · by_cases h1 : t = "" <;> by_cases h2 : ds = "" <;> by_cases h3 : c = "" <;>
      by_cases h4 : df = "" <;>
      simp [h1, h2, h3, h4, h5, Discovery.unmarshal_title, Discovery.unmarshal_description,
        Discovery.unmarshal_contact, Discovery.unmarshal_default, New, GoString.viaJSON,
        fun st => (Discovery.unmarshal_api_roots grow st _ h5).1,
        fun st => (Discovery.unmarshal_api_roots grow st _ h5).2] <;> rfl

namespace json

/-- A list of length one is the list of any element of it. -/
theorem eq_singleton_of_mem {α : Type} {l : List α} {a : α} (hl : l.length = 1) (ha : a ∈ l) :
    l = [a] := by
  match l, hl, ha with
  | [b], _, ha =>
    simp only [List.mem_singleton] at ha
    rw [ha]

/-- Among the fields of its name a dominant field is the only dominant one,
and it occurs once. -/
theorem filter_dominant_name {α : Type} (fs : List (Field α)) (f : Field α) (hf : f ∈ fs)
    (hd : dominant fs f = true) :
    fs.filter (fun g => dominant fs g && g.name == f.name) = [f] := by
  have hd2 := hd
  unfold dominant at hd2
  simp only [Bool.and_eq_true, List.all_eq_true, Bool.or_eq_true, beq_iff_eq,
    decide_eq_true_eq] at hd2
  obtain ⟨hmin, hsel⟩ := hd2
  -- the fields of the name of `f` at the depth of `f`
  have htop : f ∈ (fs.filter (fun g => g.name == f.name)).filter
      (fun g => g.depth == f.depth) := by
    simp [List.mem_filter, hf]
  -- for a field `g` of that name, being dominant means being at that depth and
  -- passing the same test as `f`
  have key : ∀ g ∈ fs, (dominant fs g && g.name == f.name)
      = ((g.name == f.name && g.depth == f.depth) &&
          (((fs.filter (fun g => g.name == f.name)).filter
              (fun g => g.depth == f.depth)).length == 1 ||
            (g.tagged && (((fs.filter (fun g => g.name == f.name)).filter
              (fun g => g.depth == f.depth)).filter (fun g => g.tagged)).length == 1))) := by
    intro g hg
    by_cases hn : g.name = f.name
    · by_cases hdep : g.depth = f.depth
      · have e : dominant fs g = ((((fs.filter (fun g => g.name == f.name)).filter
              (fun g => g.depth == f.depth)).length == 1 ||
            (g.tagged && (((fs.filter (fun g => g.name == f.name)).filter
              (fun g => g.depth == f.depth)).filter (fun g => g.tagged)).length == 1))) := by
          unfold dominant
          simp only [hn, hdep]
          have hall : ((fs.filter (fun g => g.name == f.name)).all
              (fun g => decide (f.depth ≤ g.depth))) = true := by
            simp only [List.all_eq_true, decide_eq_true_eq]
            exact hmin
          rw [hall, Bool.true_and]
        simp [e, hn, hdep]
      · have e : dominant fs g = false := by
          cases hdg : dominant fs g with
          | false => rfl
          | true =>
            have h1 := dominant_depth_le hdg hf hn.symm
            have h2 := hmin g (by simp [List.mem_filter, hg, hn])
            exact absurd (Nat.le_antisymm h1 h2) hdep
        simp [e, hn, hdep]
    · have hn2 : (g.name == f.name) = false := by simpa using hn
      rw [hn2]
      simp only [Bool.and_false, Bool.false_and]
  have nest : ∀ (Q : Field α → Bool),
      fs.filter (fun g => (g.name == f.name && g.depth == f.depth) && Q g)
        = ((fs.filter (fun g => g.name == f.name)).filter
            (fun g => g.depth == f.depth)).filter Q := by
    intro Q
    rw [List.filter_filter, List.filter_filter]
    apply List.filter_congr
    intro g _
    cases (g.name == f.name) <;> cases (g.depth == f.depth) <;> cases Q g <;> rfl
  rw [List.filter_congr key, nest]
  rcases hsel with h1 | ⟨ht, h1⟩
  · have hall : ∀ g ∈ (fs.filter (fun g => g.name == f.name)).filter
        (fun g => g.depth == f.depth),
        (((fs.filter (fun g => g.name == f.name)).filter
              (fun g => g.depth == f.depth)).length == 1 ||
            (g.tagged && (((fs.filter (fun g => g.name == f.name)).filter
              (fun g => g.depth == f.depth)).filter (fun g => g.tagged)).length == 1))
          = true := by
      intro g _
      simp only [h1, beq_self_eq_true, Bool.true_or]
    rw [List.filter_eq_self.mpr hall]
    exact eq_singleton_of_mem h1 htop
  · by_cases hone : ((fs.filter (fun g => g.name == f.name)).filter
        (fun g => g.depth == f.depth)).length = 1
    · have hall : ∀ g ∈ (fs.filter (fun g => g.name == f.name)).filter
          (fun g => g.depth == f.depth),
          (((fs.filter (fun g => g.name == f.name)).filter
                (fun g => g.depth == f.depth)).length == 1 ||
              (g.tagged && (((fs.filter (fun g => g.name == f.name)).filter
                (fun g => g.depth == f.depth)).filter (fun g => g.tagged)).length == 1))
            = true := by
        intro g _
        simp only [hone, beq_self_eq_true, Bool.true_or]
      rw [List.filter_eq_self.mpr hall]
      exact eq_singleton_of_mem hone htop
    · have hcongr : ∀ g ∈ (fs.filter (fun g => g.name == f.name)).filter
          (fun g => g.depth == f.depth),
          (((fs.filter (fun g => g.name == f.name)).filter
                (fun g => g.depth == f.depth)).length == 1 ||
              (g.tagged && (((fs.filter (fun g => g.name == f.name)).filter
                (fun g => g.depth == f.depth)).filter (fun g => g.tagged)).length == 1))
            = g.tagged := by
        intro g _
        have hne : (((fs.filter (fun g => g.name == f.name)).filter
            (fun g => g.depth == f.depth)).length == 1) = false :=
          beq_eq_false_iff_ne.mpr hone
        simp only [hne, h1, beq_self_eq_true, Bool.false_or, Bool.and_true]
      rw [List.filter_congr hcongr]
      exact eq_singleton_of_mem h1 (by simp [List.mem_filter, hf, ht])

/-- In the document of any struct, the members with the key of a dominant
field are what that field emits. -/
theorem members_Marshal_of_dominant {α : Type} (fs : List (Field α)) (f : Field α)
    (hf : f ∈ fs) (hd : dominant fs f = true) (x : α) :
    members (Marshal fs x) f.name = (f.emit x).toList := by
  have key : ∀ L : List (Field α),
      (L.filterMap (Field.emit x)).filter (fun kv => kv.1 == f.name)
        = (L.filter (fun g => g.name == f.name)).filterMap (Field.emit x) := by
    intro L
    induction L with
    | nil => rfl
    | cons g L ih =>
      cases he : g.emit x with
      | none =>
        by_cases hn : g.name = f.name <;>
          simp [List.filterMap_cons, List.filter_cons, he, hn, ih]
      | some kv =>
        have hk := emit_key he
        by_cases hn : g.name = f.name <;>
          simp [List.filterMap_cons, List.filter_cons, he, hn, ih, hk]
  unfold members Marshal selected
  rw [key, List.filter_filter]
  have e : (fun g : Field α => (g.name == f.name && dominant fs g))
      = (fun g => dominant fs g && g.name == f.name) := by
    funext g
    exact Bool.and_comm _ _
  rw [e, filter_dominant_name fs f hf hd]
  cases he : f.emit x <;> simp [List.filterMap_cons, he]

end json

/-- C7, as stated, fails twice.  The emitted value is not always the stored
one: after `SetDescription("\xff")` the key `description` carries U+FFFD,
whose bytes are not the stored byte.  And not in any composite is a key
emitted when the value is non-empty: a struct that embeds both `LangProperty`
structs emits no `lang`, whatever the two hold. -/
theorem C7_key_emitted_counterexample :
    json.Marshal DescriptionProperty.fields
        ((({ Description := "" } : DescriptionProperty).SetDescription invalidUTF8).1)
      = [("description", json.Value.elem (.str "\uFFFD"))] ∧
    (New.SetDescription invalidUTF8).1.Marshal
      = [("description", json.Value.elem (.str "\uFFFD"))] ∧
    GoString.ofString "\uFFFD" ≠ invalidUTF8 ∧
    ({ LangProperty := { Lang := "en" }, BaseLang := { Lang := "en" } } : TwoLang).LangProperty.Lang
      ≠ "" ∧
    "lang" ∉ json.keys (json.Marshal TwoLang.fields
      { LangProperty := { Lang := "en" }, BaseLang := { Lang := "en" } }) := by
  refine ⟨by decide, by decide, by decide, by decide, by decide⟩

/-- C7, amended.  In the document of any struct, a field that Go's dominance
rule selects for its key is emitted if and only if it is not both `omitempty`
and empty, with the encoding of its value.  Every field of the sources'
structs is selected: each unit struct on its own, the five keys of
`Discovery`, and `spec_version` and `created_by_ref` of `BaseProperties`
(whatever the embedded structs contribute) are emitted exactly when the value
is not the zero value.  An emitted string is the text of the stored bytes,
U+FFFD for each byte that is not part of valid UTF-8; its UTF-8 bytes are the
stored string whenever that is valid UTF-8.  A new `Discovery` emits no key,
and setting a unit to its zero value serialises as never setting it. -/
theorem C7_key_emitted_amended :
    (∀ (α : Type) (fs : List (json.Field α)) (f : json.Field α) (x : α),
      f ∈ fs → json.dominant fs f = true →
      json.members (json.Marshal fs x) f.name
        = if (f.omitEmpty && f.isEmpty x) = true then [] else [(f.name, f.encode x)]) ∧
    (∀ b : GoString, b.Valid = true → GoString.ofString b.toText = b) ∧
    (∀ p : ConfidenceProperty, json.Marshal ConfidenceProperty.fields p
      = if p.Confidence = 0 then []
        else [("confidence", json.Value.elem (.num p.Confidence))]) ∧
    (∀ p : DescriptionProperty, json.Marshal DescriptionProperty.fields p
      = if p.Description = "" then []
        else [("description", json.Value.elem (.str p.Description.toText))]) ∧
    (∀ p : properties.LangProperty, json.Marshal properties.LangProperty.fields p
      = if p.Lang = "" then [] else [("lang", json.Value.elem (.str p.Lang.toText))]) ∧
    (∀ o : baseobject.LangProperty, json.Marshal baseobject.LangProperty.fields o
      = if o.Lang = "" then [] else [("lang", json.Value.elem (.str o.Lang.toText))]) ∧
    (∀ p : NameProperty, json.Marshal NameProperty.fields p
      = if p.Name = "" then [] else [("name", json.Value.elem (.str p.Name.toText))]) ∧
    (∀ p : RevokedProperty, json.Marshal RevokedProperty.fields p
      = if p.Revoked = true then [("revoked", json.Value.elem (.bool true))] else []) ∧
    (∀ d : Discovery,
      d.Marshal =
        (if d.TitleProperty.Title = "" then []
          else [("title", json.Value.elem (.str d.TitleProperty.Title.toText))])
        ++ ((if d.DescriptionProperty.Description = "" then []
          else [("description",
            json.Value.elem (.str d.DescriptionProperty.Description.toText))])
        ++ ((if d.Contact = "" then []
          else [("contact", json.Value.elem (.str d.Contact.toText))])
        ++ ((if d.Default = "" then []
          else [("default", json.Value.elem (.str d.Default.toText))])
        ++ (if d.APIRoots.elems = [] then []
          else [("api_roots",
            json.Value.arr (d.APIRoots.elems.map fun s => json.Elem.str s.toText))])))) ∧
      ("description" ∈ json.keys d.Marshal ↔ d.DescriptionProperty.Description ≠ "") ∧
      ("contact" ∈ json.keys d.Marshal ↔ d.Contact ≠ "") ∧
      ("default" ∈ json.keys d.Marshal ↔ d.Default ≠ "") ∧
      ("api_roots" ∈ json.keys d.Marshal ↔ d.APIRoots.elems ≠ [])) ∧
    (∀ (T I B : Type) (tf : List (json.Field T)) (idf : List (json.Field I))
      (bf : List (json.Field B)) (p : BaseProperties T I B),
      json.members (BaseProperties.Marshal tf idf bf p) "spec_version"
        = (if p.SpecVersion = "" then []
          else [("spec_version", json.Value.elem (.str p.SpecVersion.toText))]) ∧
      json.members (BaseProperties.Marshal tf idf bf p) "created_by_ref"
        = (if p.CreatedByRef = "" then []
          else [("created_by_ref", json.Value.elem (.str p.CreatedByRef.toText))])) ∧
    New.Marshal = [] ∧
    (New.SetDescription "").1.Marshal = New.Marshal ∧
    (New.SetContact "").1.Marshal = New.Marshal ∧
    (New.SetDefault "").1.Marshal = New.Marshal ∧
    json.Marshal ConfidenceProperty.fields
        ((({ Confidence := 0 } : ConfidenceProperty).SetConfidence 0).1)
      = json.Marshal ConfidenceProperty.fields { Confidence := 0 } := by
  refine ⟨?_, ?_, ?_, ?_, ?_, ?_, ?_, ?_, ?_, ?_, ?_, ?_, ?_, ?_, ?_⟩
  · intro α fs f x hf hd
    rw [json.members_Marshal_of_dominant fs f hf hd x]
    unfold json.Field.emit
    split <;> rfl
  · intro b hb
    exact GoString.ofString_toText b hb
  · intro p
    exact (json.Marshal_singleton _ p).trans (json.emit_intField _ _ _ p)
  · intro p
    exact (json.Marshal_singleton _ p).trans (json.emit_stringField _ _ _ p)
  · intro p
    exact (json.Marshal_singleton _ p).trans (json.emit_stringField _ _ _ p)
  · intro o
    exact (json.Marshal_singleton _ o).trans (json.emit_stringField _ _ _ o)
  · intro p
    exact (json.Marshal_singleton _ p).trans (json.emit_stringField _ _ _ p)
  · intro p
    exact (json.Marshal_singleton _ p).trans (json.emit_boolField _ _ _ p)
  · intro d
    exact ⟨Discovery.Marshal_eq d, (Discovery.keys_Marshal_iff d).2⟩
  · intro T I B tf idf bf p
    exact ⟨BaseProperties.members_spec_version tf idf bf p,
      BaseProperties.members_created_by_ref tf idf bf p⟩
  · decide
  · decide
  · decide
  · decide
  · rfl

/-- C7, amended, at concrete inputs: the field of `DescriptionProperty` with
the description "x", and the valid Go string "en". -/
theorem C7_key_emitted_amended_witness :
    (json.dominant DescriptionProperty.fields
        (json.stringField "description" true (fun p : DescriptionProperty => p.Description)
          (fun s p => { p with Description := s })) = true ∧
      json.members (json.Marshal DescriptionProperty.fields { Description := "x" })
          "description"
        = [("description", json.Value.elem (.str "x"))]) ∧
    ((("en" : String) : GoString).Valid = true ∧
      GoString.ofString (("en" : String) : GoString).toText = (("en" : String) : GoString)) :=
  ⟨⟨by decide,
    C7_key_emitted_amended.1 DescriptionProperty DescriptionProperty.fields
      (json.stringField "description" true (fun p : DescriptionProperty => p.Description)
        (fun s p => { p with Description := s }))
      { Description := "x" } (List.mem_cons_self _ _) (by decide)⟩,
   ⟨by decide, C7_key_emitted_amended.2.1 _ (by decide)⟩⟩
/-- C8. The object identifier never reaches the document: for every
`BaseProperties` and integers `i`, `j` the document after `SetObjectID(i)` is
the document after `SetObjectID(j)` and the document with no setter called;
its keys are names of the tagged fields or of fields of the embedded structs,
so with embedded structs that have no field named `ObjectID` there is no such
key. -/
theorem C8_object_id_not_serialised :
    (∀ (T I B : Type) (tf : List (json.Field T)) (idf : List (json.Field I))
      (bf : List (json.Field B)) (p : BaseProperties T I B) (i j : Int),
      BaseProperties.Marshal tf idf bf (p.SetObjectID i).1
        = BaseProperties.Marshal tf idf bf (p.SetObjectID j).1 ∧
      BaseProperties.Marshal tf idf bf (p.SetObjectID i).1
        = BaseProperties.Marshal tf idf bf p ∧
      json.keys (BaseProperties.Marshal tf idf bf (p.SetObjectID i).1)
        ⊆ "spec_version" :: "created_by_ref"
            :: (tf.map (fun f => f.name) ++ idf.map (fun f => f.name)
                ++ bf.map (fun f => f.name)) ∧
      json.keys (BaseProperties.Marshal tf idf bf p)
        ⊆ "spec_version" :: "created_by_ref"
            :: (tf.map (fun f => f.name) ++ idf.map (fun f => f.name)
                ++ bf.map (fun f => f.name))) ∧
    (∀ (T I B : Type) (p : BaseProperties T I B) (i : Int),
      "ObjectID" ∉ json.keys (BaseProperties.Marshal [] [] [] (p.SetObjectID i).1) ∧
      "ObjectID" ∉ json.keys (BaseProperties.Marshal [] [] [] p)) := by
  constructor
  · intro T I B tf idf bf p i j
    refine ⟨?_, ?_, ?_, ?_⟩
    · exact (BaseProperties.Marshal_ObjectID tf idf bf p i).trans
        (BaseProperties.Marshal_ObjectID tf idf bf p j).symm
    · exact BaseProperties.Marshal_ObjectID tf idf bf p i
    · exact BaseProperties.keys_Marshal_subset tf idf bf _
    · exact BaseProperties.keys_Marshal_subset tf idf bf p
  · intro T I B p i
    constructor
    · intro h
      have := BaseProperties.keys_Marshal_subset ([] : List (json.Field T)) ([] : List (json.Field I))
        ([] : List (json.Field B)) (p.SetObjectID i).1 h
      simp at this
    · intro h
      have := BaseProperties.keys_Marshal_subset ([] : List (json.Field T)) ([] : List (json.Field I))
        ([] : List (json.Field B)) p h
      simp at this

/-- C9. The scenario: after `SetContact`, `SetDefault` and two `AddAPIRoot`
calls on a new `Discovery` the document has the members `contact`, `default`,
`api_roots`, in that order and no other (no `title`, no `description`), and
its text is the one the spec gives. -/
theorem C9_discovery_scenario :
    scenario.Marshal
      = [("contact", json.Value.elem (.str "ops@example.com")),
         ("default", json.Value.elem (.str "https://example.com/api1/")),
         ("api_roots", json.Value.arr
            [.str "https://example.com/api1/", .str "https://example.com/api2/"])] ∧
    json.render scenario.Marshal
      = "\x7b\"contact\":\"ops@example.com\",\"default\":\"https://example.com/api1/\",\"api_roots\":[\"https://example.com/api1/\",\"https://example.com/api2/\"]\x7d" ∧
    "title" ∉ json.keys scenario.Marshal ∧
    "description" ∉ json.keys scenario.Marshal := by
  refine ⟨by decide, by decide, by decide, by decide⟩


/-- C10, as stated, fails twice: a `Discovery` whose `APIRoots` is allocated
and empty serialises without `api_roots` and decodes with a nil `APIRoots`;
and a `Discovery` whose contact is the byte `0xff` decodes with another
contact, the bytes of U+FFFD. -/
theorem C10_roundtrip_counterexample :
    (Discovery.Unmarshal doubling emptyRoots.Marshal).1.APIRoots ≠ emptyRoots.APIRoots ∧
    emptyRoots.APIRoots = some [] ∧
    (Discovery.Unmarshal doubling emptyRoots.Marshal).1.APIRoots = none ∧
    (Discovery.Unmarshal doubling (New.SetContact invalidUTF8).1.Marshal).1.Contact
      ≠ (New.SetContact invalidUTF8).1.Contact ∧
    (Discovery.Unmarshal doubling (New.SetContact invalidUTF8).1.Marshal).1.Contact
      = GoString.ofString "\uFFFD" := by
  refine ⟨by decide, by decide, by decide, by decide, by decide⟩

/-- C10, amended.  Decoding the document of a `Discovery` into a new one
succeeds, whatever the growth rule of the runtime.  Title, description,
contact, default and each element of `APIRoots` come back with every byte
that is not part of valid UTF-8 replaced by U+FFFD, hence as they were if
they are valid UTF-8; `APIRoots` has the elements of the original in order
and is nil if the original had none (also if it was allocated and empty).
Decoding the document of a `BaseProperties` into a zero value gives back
`SpecVersion` and `CreatedByRef` in the same way, and `ObjectID` 0 whatever
the original had. -/
theorem C10_roundtrip_amended :
    (∀ (grow : Nat → Nat) (d : Discovery),
      (Discovery.Unmarshal grow d.Marshal).2 = none ∧
      (Discovery.Unmarshal grow d.Marshal).1.TitleProperty.Title
        = d.TitleProperty.Title.viaJSON ∧
      (Discovery.Unmarshal grow d.Marshal).1.DescriptionProperty.Description
        = d.DescriptionProperty.Description.viaJSON ∧
      (Discovery.Unmarshal grow d.Marshal).1.Contact = d.Contact.viaJSON ∧
      (Discovery.Unmarshal grow d.Marshal).1.Default = d.Default.viaJSON ∧
      (Discovery.Unmarshal grow d.Marshal).1.APIRoots.elems
        = d.APIRoots.elems.map GoString.viaJSON ∧
      ((Discovery.Unmarshal grow d.Marshal).1.APIRoots = none ↔ d.APIRoots.elems = []) ∧
      (d.TitleProperty.Title.Valid = true →
        (Discovery.Unmarshal grow d.Marshal).1.TitleProperty = d.TitleProperty) ∧
      (d.DescriptionProperty.Description.Valid = true →
        (Discovery.Unmarshal grow d.Marshal).1.DescriptionProperty = d.DescriptionProperty) ∧
      (d.Contact.Valid = true → (Discovery.Unmarshal grow d.Marshal).1.Contact = d.Contact) ∧
      (d.Default.Valid = true → (Discovery.Unmarshal grow d.Marshal).1.Default = d.Default) ∧
      ((∀ s ∈ d.APIRoots.elems, s.Valid = true) →
        (Discovery.Unmarshal grow d.Marshal).1.APIRoots.elems = d.APIRoots.elems ∧
        (Discovery.Unmarshal grow d.Marshal).1.APIRoots
          = if d.APIRoots.elems = [] then none else d.APIRoots)) ∧
    (∀ b : GoString, b.Valid = true → b.viaJSON = b) ∧
    (∀ (T I B : Type) (grow : Nat → Nat) (tf : List (json.Field T))
      (idf : List (json.Field I)) (bf : List (json.Field B)) (t0 : T) (i0 : I) (b0 : B)
      (p : BaseProperties T I B),
      (BaseProperties.Unmarshal grow tf idf bf t0 i0 b0
        (BaseProperties.Marshal tf idf bf p)).1.SpecVersion = p.SpecVersion.viaJSON ∧
      (BaseProperties.Unmarshal grow tf idf bf t0 i0 b0
        (BaseProperties.Marshal tf idf bf p)).1.CreatedByRef = p.CreatedByRef.viaJSON ∧
      (BaseProperties.Unmarshal grow tf idf bf t0 i0 b0
        (BaseProperties.Marshal tf idf bf p)).1.ObjectID = 0 ∧
      (p.SpecVersion.Valid = true →
        (BaseProperties.Unmarshal grow tf idf bf t0 i0 b0
          (BaseProperties.Marshal tf idf bf p)).1.SpecVersion = p.SpecVersion) ∧
      (p.CreatedByRef.Valid = true →
        (BaseProperties.Unmarshal grow tf idf bf t0 i0 b0
          (BaseProperties.Marshal tf idf bf p)).1.CreatedByRef = p.CreatedByRef)) := by
  refine ⟨?_, GoString.viaJSON_of_valid, ?_⟩
  · intro grow d
    rw [Discovery.Unmarshal_Marshal]
    refine ⟨rfl, rfl, rfl, rfl, rfl, ?_, ?_, ?_, ?_, ?_, ?_, ?_⟩
    · by_cases h : d.APIRoots.elems = []
      · simp only [h, if_true, List.map_nil]
        rfl
      · simp only [h, if_false]
        rfl
    · by_cases h : d.APIRoots.elems = []
      · simp [h]
      · simp [h]
    · intro hv
      simp only [GoString.viaJSON_of_valid _ hv]
    · intro hv
      simp only [GoString.viaJSON_of_valid _ hv]
    · intro hv
      exact GoString.viaJSON_of_valid _ hv
    · intro hv
      exact GoString.viaJSON_of_valid _ hv
    · intro hv
      simp only [GoString.map_viaJSON_of_valid _ hv]
      cases ha : d.APIRoots with
      | none => simp [StringSlice.elems]
      | some l =>
        by_cases h : l = []
        · simp [StringSlice.elems, h]
        · simp [StringSlice.elems, h]
  · intro T I B grow tf idf bf t0 i0 b0 p
    have h1 := BaseProperties.roundtrip_SpecVersion grow tf idf bf t0 i0 b0 p
    have h2 := BaseProperties.roundtrip_CreatedByRef grow tf idf bf t0 i0 b0 p
    refine ⟨h1, h2, ?_, ?_, ?_⟩
    · exact json.Unmarshal_preserves (fun q : BaseProperties T I B => q.ObjectID) grow _
        (BaseProperties.decode_ObjectID grow tf idf bf) _ _
    · intro hv
      rw [h1, GoString.viaJSON_of_valid _ hv]
    · intro hv
      rw [h2, GoString.viaJSON_of_valid _ hv]

/-- C10, amended, at the scenario object, whose strings are valid UTF-8, with
doubling as the growth rule. -/
theorem C10_roundtrip_amended_witness :
    (scenario.Contact.Valid = true ∧
      (Discovery.Unmarshal doubling scenario.Marshal).1.Contact = scenario.Contact) ∧
    (scenario.Default.Valid = true ∧
      (Discovery.Unmarshal doubling scenario.Marshal).1.Default = scenario.Default) ∧
    ((∀ s ∈ scenario.APIRoots.elems, s.Valid = true) ∧
      (Discovery.Unmarshal doubling scenario.Marshal).1.APIRoots = scenario.APIRoots) :=
  have h := C10_roundtrip_amended.1 doubling scenario
  ⟨⟨by decide, h.2.2.2.2.2.2.2.2.2.1 (by decide)⟩,
   ⟨by decide, h.2.2.2.2.2.2.2.2.2.2.1 (by decide)⟩,
   ⟨by decide, (h.2.2.2.2.2.2.2.2.2.2.2 (by decide)).2⟩⟩
/-! ### Calls on the value of a `Discovery` -/

/-- C11. After any `AddAPIRoot` call, whether the slice was nil, allocated and
empty, or populated, `APIRoots` is not nil, has an element, and is one longer
than before the call. -/
theorem C11_AddAPIRoot_nonempty :
    (∀ (d : Discovery) (s : GoString),
      (d.AddAPIRoot s).1.APIRoots ≠ none ∧
      (d.AddAPIRoot s).1.APIRoots.elems ≠ [] ∧
      (d.AddAPIRoot s).1.APIRoots.len = d.APIRoots.len + 1) ∧
    (New.AddAPIRoot "a").1.APIRoots.len = 1 ∧
    (emptyRoots.AddAPIRoot "a").1.APIRoots.len = 1 ∧
    (scenario.AddAPIRoot "a").1.APIRoots.len = 3 := by
  refine ⟨fun d s => ?_, rfl, rfl, rfl⟩
  cases h : d.APIRoots <;>
    simp [Discovery.AddAPIRoot, StringSlice.append, StringSlice.elems, StringSlice.make0,
      StringSlice.len, h]

/-- C12. The scalar setters are idempotent: called twice with the same value
they leave the state, the returned error and the document they leave after
one call. -/
theorem C12_setters_idempotent :
    (∀ (d : Discovery) (s : GoString),
      (d.SetContact s).1.SetContact s = d.SetContact s ∧
      ((d.SetContact s).1.SetContact s).1.Marshal = (d.SetContact s).1.Marshal) ∧
    (∀ (d : Discovery) (s : GoString),
      (d.SetDefault s).1.SetDefault s = d.SetDefault s ∧
      ((d.SetDefault s).1.SetDefault s).1.Marshal = (d.SetDefault s).1.Marshal) ∧
    (∀ (d : Discovery) (s : GoString),
      (d.SetDescription s).1.SetDescription s = d.SetDescription s ∧
      ((d.SetDescription s).1.SetDescription s).1.Marshal = (d.SetDescription s).1.Marshal) ∧
    (∀ (p : DescriptionProperty) (s : GoString),
      (p.SetDescription s).1.SetDescription s = p.SetDescription s ∧
      json.Marshal DescriptionProperty.fields ((p.SetDescription s).1.SetDescription s).1
        = json.Marshal DescriptionProperty.fields (p.SetDescription s).1) ∧
    (∀ (p : properties.LangProperty) (s : GoString),
      (p.SetLang s).1.SetLang s = p.SetLang s ∧
      json.Marshal properties.LangProperty.fields ((p.SetLang s).1.SetLang s).1
        = json.Marshal properties.LangProperty.fields (p.SetLang s).1) ∧
    (∀ (o : baseobject.LangProperty) (s : GoString),
      (o.SetLang s).1.SetLang s = o.SetLang s ∧
      json.Marshal baseobject.LangProperty.fields ((o.SetLang s).1.SetLang s).1
        = json.Marshal baseobject.LangProperty.fields (o.SetLang s).1) ∧
    (∀ (p : NameProperty) (s : GoString),
      (p.SetName s).1.SetName s = p.SetName s ∧
      json.Marshal NameProperty.fields ((p.SetName s).1.SetName s).1
        = json.Marshal NameProperty.fields (p.SetName s).1) ∧
    (∀ (p : ConfidenceProperty) (i : Int),
      (p.SetConfidence i).1.SetConfidence i = p.SetConfidence i ∧
      json.Marshal ConfidenceProperty.fields ((p.SetConfidence i).1.SetConfidence i).1
        = json.Marshal ConfidenceProperty.fields (p.SetConfidence i).1) ∧
    (∀ (p : RevokedProperty),
      p.SetRevoked.1.SetRevoked = p.SetRevoked ∧
      json.Marshal RevokedProperty.fields p.SetRevoked.1.SetRevoked.1
        = json.Marshal RevokedProperty.fields p.SetRevoked.1) ∧
    (∀ (T I B : Type) (tf : List (json.Field T)) (idf : List (json.Field I))
      (bf : List (json.Field B)) (p : BaseProperties T I B) (s : GoString) (i : Int),
      (p.SetSpecVersion s).1.SetSpecVersion s = p.SetSpecVersion s ∧
      p.SetSpecVersion20.1.SetSpecVersion20 = p.SetSpecVersion20 ∧
      p.SetSpecVersion21.1.SetSpecVersion21 = p.SetSpecVersion21 ∧
      (p.SetCreatedByRef s).1.SetCreatedByRef s = p.SetCreatedByRef s ∧
      (p.SetObjectID i).1.SetObjectID i = p.SetObjectID i ∧
      BaseProperties.Marshal tf idf bf ((p.SetSpecVersion s).1.SetSpecVersion s).1
        = BaseProperties.Marshal tf idf bf (p.SetSpecVersion s).1 ∧
      BaseProperties.Marshal tf idf bf p.SetSpecVersion20.1.SetSpecVersion20.1
        = BaseProperties.Marshal tf idf bf p.SetSpecVersion20.1 ∧
      BaseProperties.Marshal tf idf bf p.SetSpecVersion21.1.SetSpecVersion21.1
        = BaseProperties.Marshal tf idf bf p.SetSpecVersion21.1 ∧
      BaseProperties.Marshal tf idf bf ((p.SetCreatedByRef s).1.SetCreatedByRef s).1
        = BaseProperties.Marshal tf idf bf (p.SetCreatedByRef s).1 ∧
      BaseProperties.Marshal tf idf bf ((p.SetObjectID i).1.SetObjectID i).1
        = BaseProperties.Marshal tf idf bf (p.SetObjectID i).1) := by
  refine ⟨?_, ?_, ?_, ?_, ?_, ?_, ?_, ?_, ?_, ?_⟩
  · intro d s; exact ⟨rfl, rfl⟩
  · intro d s; exact ⟨rfl, rfl⟩
  · intro d s; exact ⟨rfl, rfl⟩
  · intro p s; exact ⟨rfl, rfl⟩
  · intro p s; exact ⟨rfl, rfl⟩
  · intro o s; exact ⟨rfl, rfl⟩
  · intro p s; exact ⟨rfl, rfl⟩
  · intro p i; exact ⟨rfl, rfl⟩
  · intro p; exact ⟨rfl, rfl⟩
  · intro T I B tf idf bf p s i
    exact ⟨rfl, rfl, rfl, rfl, rfl, rfl, rfl, rfl, rfl, rfl⟩

/-- C13. Each `Discovery` operation touches only its own field: `SetContact`
leaves `Default`, `APIRoots` and the embedded units, `SetDefault` leaves
`Contact`, `APIRoots` and the embedded units, `AddAPIRoot` leaves `Contact`,
`Default` and the embedded units, `SetDescription` leaves `Contact`,
`Default`, `APIRoots` and the title unit; the getters leave the object as it
is. -/
theorem C13_discovery_frame :
    (∀ (d : Discovery) (s : GoString),
      (d.SetContact s).1.Default = d.Default ∧
      (d.SetContact s).1.APIRoots = d.APIRoots ∧
      (d.SetContact s).1.TitleProperty = d.TitleProperty ∧
      (d.SetContact s).1.DescriptionProperty = d.DescriptionProperty) ∧
    (∀ (d : Discovery) (s : GoString),
      (d.SetDefault s).1.Contact = d.Contact ∧
      (d.SetDefault s).1.APIRoots = d.APIRoots ∧
      (d.SetDefault s).1.TitleProperty = d.TitleProperty ∧
      (d.SetDefault s).1.DescriptionProperty = d.DescriptionProperty) ∧
    (∀ (d : Discovery) (s : GoString),
      (d.AddAPIRoot s).1.Contact = d.Contact ∧
      (d.AddAPIRoot s).1.Default = d.Default ∧
      (d.AddAPIRoot s).1.TitleProperty = d.TitleProperty ∧
      (d.AddAPIRoot s).1.DescriptionProperty = d.DescriptionProperty) ∧
    (∀ (d : Discovery) (s : GoString),
      (d.SetDescription s).1.Contact = d.Contact ∧
      (d.SetDescription s).1.Default = d.Default ∧
      (d.SetDescription s).1.APIRoots = d.APIRoots ∧
      (d.SetDescription s).1.TitleProperty = d.TitleProperty) ∧
    (∀ d : Discovery,
      d.step .getContact = d ∧ d.step .getDefault = d ∧
      d.step .getDescription = d ∧ d.step .getTitle = d) := by
  refine ⟨fun d s => ⟨rfl, rfl, rfl, rfl⟩, fun d s => ⟨rfl, rfl, rfl, rfl⟩, fun d s => ?_,
    fun d s => ⟨rfl, rfl, rfl, rfl⟩, fun d => ⟨rfl, rfl, rfl, rfl⟩⟩
  unfold Discovery.AddAPIRoot
  by_cases h : d.APIRoots = none <;> simp [h]

/-- C14. Each `BaseProperties` setter touches only its own field.
`SetObjectID` changes `ObjectID` alone (the specification version is left as
it was, whatever its docstring says); the three version setters leave
`ObjectID` and `CreatedByRef`; `SetCreatedByRef` leaves `ObjectID` and
`SpecVersion`; every setter leaves the embedded structs; the getters leave
the object as it is. -/
theorem C14_base_properties_frame :
    ∀ (T I B : Type) (p : BaseProperties T I B) (s : GoString) (i : Int),
      ((p.SetObjectID i).1.SpecVersion = p.SpecVersion ∧
       (p.SetObjectID i).1.CreatedByRef = p.CreatedByRef ∧
       (p.SetObjectID i).1 = { p with ObjectID := i }) ∧
      ((p.SetSpecVersion s).1.ObjectID = p.ObjectID ∧
       (p.SetSpecVersion s).1.CreatedByRef = p.CreatedByRef ∧
       (p.SetSpecVersion s).1 = { p with SpecVersion := s }) ∧
      (p.SetSpecVersion20.1.ObjectID = p.ObjectID ∧
       p.SetSpecVersion20.1.CreatedByRef = p.CreatedByRef ∧
       p.SetSpecVersion20.1 = { p with SpecVersion := "2.0" }) ∧
      (p.SetSpecVersion21.1.ObjectID = p.ObjectID ∧
       p.SetSpecVersion21.1.CreatedByRef = p.CreatedByRef ∧
       p.SetSpecVersion21.1 = { p with SpecVersion := "2.1" }) ∧
      ((p.SetCreatedByRef s).1.ObjectID = p.ObjectID ∧
       (p.SetCreatedByRef s).1.SpecVersion = p.SpecVersion ∧
       (p.SetCreatedByRef s).1 = { p with CreatedByRef := s }) ∧
      (p.step .getObjectID = p ∧ p.step .getSpecVersion = p ∧
       p.step .getCreatedByRef = p) := by
  intro T I B p s i
  exact ⟨⟨rfl, rfl, rfl⟩, ⟨rfl, rfl, rfl⟩, ⟨rfl, rfl, rfl⟩, ⟨rfl, rfl, rfl⟩, ⟨rfl, rfl, rfl⟩,
    ⟨rfl, rfl, rfl⟩⟩

/-- One call leaves the elements of `APIRoots`, followed by the argument if
the call is `AddAPIRoot`. -/
theorem Discovery.step_elems (d : Discovery) (op : DiscoveryOp) :
    (d.step op).APIRoots.elems = d.APIRoots.elems ++ addedRoots [op] := by
  cases op <;> try (simp [Discovery.step, addedRoots, Discovery.SetTitle,
    Discovery.SetDescription, Discovery.SetContact, Discovery.SetDefault])
  case addAPIRoot s =>
    cases h : d.APIRoots <;>
      simp [Discovery.AddAPIRoot, StringSlice.append, StringSlice.elems,
        StringSlice.make0, h]

/-- The added roots of a sequence that starts with one call. -/
theorem addedRoots_cons (op : DiscoveryOp) (ops : List DiscoveryOp) :
    addedRoots (op :: ops) = addedRoots [op] ++ addedRoots ops := by
  cases op <;> simp [addedRoots]

/-- A call sequence leaves the elements of `APIRoots`, followed by the
arguments of its `AddAPIRoot` calls. -/
theorem Discovery.run_elems (ops : List DiscoveryOp) :
    ∀ d : Discovery, (d.run ops).APIRoots.elems = d.APIRoots.elems ++ addedRoots ops := by
  induction ops with
  | nil => intro d; simp [Discovery.run, addedRoots]
  | cons op ops ih =>
    intro d
    have h := ih (d.step op)
    rw [Discovery.step_elems] at h
    rw [addedRoots_cons op ops, ← List.append_assoc]
    exact h

/-- One call leaves a nil `APIRoots` nil unless it is `AddAPIRoot`, and never
makes `APIRoots` nil or allocated and empty. -/
theorem Discovery.step_nil (d : Discovery) (op : DiscoveryOp) :
    ((d.step op).APIRoots = none ↔ d.APIRoots = none ∧ addedRoots [op] = []) ∧
    (d.APIRoots ≠ some [] → (d.step op).APIRoots ≠ some []) := by
  cases op <;> try (simp [Discovery.step, addedRoots, Discovery.SetTitle,
    Discovery.SetDescription, Discovery.SetContact, Discovery.SetDefault])
  case addAPIRoot s =>
    cases h : d.APIRoots <;>
      simp [Discovery.AddAPIRoot, StringSlice.append, StringSlice.elems,
        StringSlice.make0, h]

/-- A call sequence from a state that is nil or has an element: `APIRoots` is
nil exactly if it was and no `AddAPIRoot` was called, and is never allocated
and empty. -/
theorem Discovery.run_nil (ops : List DiscoveryOp) :
    ∀ d : Discovery, d.APIRoots ≠ some [] →
      (((d.run ops).APIRoots = none ↔ d.APIRoots = none ∧ addedRoots ops = []) ∧
        (d.run ops).APIRoots ≠ some []) := by
  induction ops with
  | nil => intro d hd; simpa [Discovery.run, addedRoots] using hd
  | cons op ops ih =>
    intro d hd
    have hs := Discovery.step_nil d op
    have h := ih (d.step op) (hs.2 hd)
    refine ⟨?_, h.2⟩
    have hrun : d.run (op :: ops) = (d.step op).run ops := rfl
    rw [hrun, h.1, hs.1, addedRoots_cons op ops]
    simp [and_assoc]

/-! ### Discovery objects behind pointers -/

namespace heap

/-- Writing the cell after the first `n` cells: the first `n + 1` cells. -/
theorem take_succ_set (s : GoString) :
    ∀ (l : List GoString) (n : Nat), n < l.length → (l.set n s).take (n + 1) = l.take n ++ [s] := by
  intro l
  induction l with
  | nil => intro n h; simp at h
  | cons x l ih =>
    intro n h
    cases n with
    | zero => simp
    | succ n =>
      simp only [List.set_cons_succ, List.take_succ_cons, List.cons_append, List.cons.injEq,
        true_and]
      exact ih n (by simpa using h)

/-- The first `n + 1` cells of a grown backing array. -/
theorem take_succ_grown (l : List GoString) (n : Nat) (s : GoString) (pad : List GoString)
    (h : n ≤ l.length) : (l.take n ++ s :: pad).take (n + 1) = l.take n ++ [s] := by
  have e : l.take n ++ s :: pad = (l.take n ++ [s]) ++ pad := by simp
  rw [e]
  apply List.take_left'
  simp [List.length_take, Nat.min_eq_left h]

/-- What `AddAPIRoot` through the pointer `r` does to a well-formed memory:
the object at `r` gets a new slice header, which is well formed, reads as the
old elements followed by `s`, and points to the old backing array or to a new
one; the other objects and the backing arrays of other slices stay. -/
theorem AddAPIRoot_spec (grow : Nat → Nat) (m : Memory) (hm : m.WF) (r : Nat) (s : GoString) :
    ∃ h2 : SliceHeader,
      (AddAPIRoot grow m r s).1.objects r = { m.objects r with APIRoots := some h2 } ∧
      h2.array < (AddAPIRoot grow m r s).1.nextArray ∧
      h2.len ≤ h2.cap ∧
      h2.cap ≤ ((AddAPIRoot grow m r s).1.arrays h2.array).length ∧
      ((AddAPIRoot grow m r s).1.arrays h2.array).take h2.len
        = StringSlice.elems (m.slice (m.objects r).APIRoots) ++ [s] ∧
      (m.nextArray ≤ h2.array ∨ ∃ h, (m.objects r).APIRoots = some h ∧ h2.array = h.array) ∧
      (∀ r2, r2 ≠ r → (AddAPIRoot grow m r s).1.objects r2 = m.objects r2) ∧
      (∀ a, a < m.nextArray → (∀ h, (m.objects r).APIRoots = some h → a ≠ h.array) →
        (AddAPIRoot grow m r s).1.arrays a = m.arrays a) ∧
      m.nextArray ≤ (AddAPIRoot grow m r s).1.nextArray := by
  cases hr : (m.objects r).APIRoots with
  | none =>
    refine ⟨⟨m.nextArray + 1, 1, max (grow 0) 1⟩, ?_⟩
    simp [AddAPIRoot, hr, make0, append, growslice, Memory.store, Memory.slice,
      StringSlice.elems, Function.update_apply]
    refine ⟨fun r2 h1 h2 => absurd h2 h1, fun a ha => ?_, by omega⟩
    rw [if_neg (by omega), if_neg (by omega)]
  | some h =>
    obtain ⟨hlt, hlc, hcl⟩ := hm.1 r h hr
    by_cases hc : h.len < h.cap
    · refine ⟨{ h with len := h.len + 1 }, ?_⟩
      simp [AddAPIRoot, hr, append, hc, Memory.store, Memory.slice, StringSlice.elems,
        Function.update_apply]
      exact ⟨hlt, by omega, hcl, take_succ_set s _ _ (by omega),
        fun r2 h1 h2 => absurd h2 h1, fun a _ h1 h2 => absurd h2 h1⟩
    · refine ⟨⟨m.nextArray, h.len + 1, max (grow h.cap) (h.len + 1)⟩, ?_⟩
      simp [AddAPIRoot, hr, append, hc, growslice, Memory.store, Memory.slice,
        StringSlice.elems, Function.update_apply]
      have e : h.len ⊓ (m.arrays h.array).length = h.len := min_eq_left (by omega)
      have hM1 : grow h.cap ≤ grow h.cap ⊔ (h.len + 1) := le_sup_left
      have hM2 : h.len + 1 ≤ grow h.cap ⊔ (h.len + 1) := le_sup_right
      rw [e]
      refine ⟨⟨by omega, by omega⟩, take_succ_grown _ _ _ _ (by omega),
        fun r2 h1 h2 => absurd h2 h1, fun a ha _ h2 => ?_⟩
      omega

/-- `AddAPIRoot` keeps memory well formed. -/
theorem AddAPIRoot_WF (grow : Nat → Nat) (m : Memory) (hm : m.WF) (r : Nat) (s : GoString) :
    (AddAPIRoot grow m r s).1.WF := by
  obtain ⟨h2, hobj, hlt, hlc, hcl, _, hfresh, hother, harr, hnext⟩ :=
    AddAPIRoot_spec grow m hm r s
  -- a header of another object is an old one, and its backing array is untouched
  have old : ∀ r0 h0, r0 ≠ r → ((AddAPIRoot grow m r s).1.objects r0).APIRoots = some h0 →
      (m.objects r0).APIRoots = some h0 ∧ h0.array < m.nextArray ∧
      (AddAPIRoot grow m r s).1.arrays h0.array = m.arrays h0.array := by
    intro r0 h0 hne hh
    rw [hother r0 hne] at hh
    have hw := hm.1 r0 h0 hh
    exact ⟨hh, hw.1, harr h0.array hw.1 (fun h hr => hm.2 r0 r h0 h hne hh hr)⟩
  have new : ∀ h0, ((AddAPIRoot grow m r s).1.objects r).APIRoots = some h0 → h0 = h2 := by
    intro h0 hh
    rw [hobj] at hh
    exact (Option.some.inj hh).symm
  have apart : ∀ r0 h0, r0 ≠ r → ((AddAPIRoot grow m r s).1.objects r0).APIRoots = some h0 →
      h2.array ≠ h0.array := by
    intro r0 h0 hne hh
    obtain ⟨hh0, hlt0, _⟩ := old r0 h0 hne hh
    rcases hfresh with hf | ⟨h, hr, hf⟩
    · omega
    · rw [hf]
      exact hm.2 r r0 h h0 (Ne.symm hne) hr hh0
  constructor
  · intro r0 h0 hh
    by_cases hr0 : r0 = r
    · subst hr0
      rw [new h0 hh]
      exact ⟨hlt, hlc, hcl⟩
    · obtain ⟨hh0, hlt0, harr0⟩ := old r0 h0 hr0 hh
      have hw := hm.1 r0 h0 hh0
      rw [harr0]
      exact ⟨by omega, hw.2.1, hw.2.2⟩
  · intro r0 r3 h0 h3 hne hh0 hh3
    by_cases hr0 : r0 = r
    · subst hr0
      rw [new h0 hh0]
      exact apart r3 h3 (Ne.symm hne) hh3
    · by_cases hr3 : r3 = r
      · subst hr3
        rw [new h3 hh3]
        exact Ne.symm (apart r0 h0 hr0 hh0)
      · exact hm.2 r0 r3 h0 h3 hne (old r0 h0 hr0 hh0).1 (old r3 h3 hr3 hh3).1

/-- `AddAPIRoot` through one pointer leaves the value of every other object. -/
theorem AddAPIRoot_view_other (grow : Nat → Nat) (m : Memory) (hm : m.WF) (r r0 : Nat)
    (s : GoString) (hne : r0 ≠ r) : (AddAPIRoot grow m r s).1.view r0 = m.view r0 := by
  obtain ⟨h2, _, _, _, _, _, _, hother, harr, _⟩ := AddAPIRoot_spec grow m hm r s
  unfold Memory.view
  rw [hother r0 hne]
  cases hh : (m.objects r0).APIRoots with
  | none => simp [Memory.slice]
  | some h0 =>
    have hw := hm.1 r0 h0 hh
    simp [Memory.slice, harr h0.array hw.1 (fun h hr => hm.2 r0 r h0 h hne hh hr)]

end heap

/-- The state `AddAPIRoot` leaves. -/
theorem Discovery.AddAPIRoot_state (d : Discovery) (s : GoString) :
    (d.AddAPIRoot s).1 = { d with APIRoots := some (d.APIRoots.elems ++ [s]) } := by
  cases h : d.APIRoots <;>
    simp [Discovery.AddAPIRoot, StringSlice.append, StringSlice.elems, StringSlice.make0, h]

namespace heap

/-- `AddAPIRoot` through a pointer does to the value of its object what
`AddAPIRoot` does to a value. -/
theorem AddAPIRoot_view_same (grow : Nat → Nat) (m : Memory) (hm : m.WF) (r : Nat)
    (s : GoString) : (AddAPIRoot grow m r s).1.view r = ((m.view r).AddAPIRoot s).1 := by
  obtain ⟨h2, hobj, _, _, _, htake, _, _, _, _⟩ := AddAPIRoot_spec grow m hm r s
  rw [Discovery.AddAPIRoot_state]
  unfold Memory.view
  rw [hobj]
  simp [Memory.slice, htake]

/-- Writing an object whose slice header is the old one keeps memory well
formed. -/
theorem store_WF (m : Memory) (hm : m.WF) (r : Nat) (o : Object)
    (ho : o.APIRoots = (m.objects r).APIRoots) : (m.store r o).WF := by
  have key : ∀ r0, ((m.store r o).objects r0).APIRoots = (m.objects r0).APIRoots := by
    intro r0
    by_cases h : r0 = r
    · subst h; simp [Memory.store, ho]
    · simp [Memory.store, Function.update_apply, h]
  constructor
  · intro r0 h0 hh
    rw [key] at hh
    exact hm.1 r0 h0 hh
  · intro r0 r3 h0 h3 hne hh0 hh3
    rw [key] at hh0 hh3
    exact hm.2 r0 r3 h0 h3 hne hh0 hh3

/-- Writing an object leaves the value of every other object. -/
theorem store_view_other (m : Memory) (r r0 : Nat) (o : Object) (hne : r0 ≠ r) :
    (m.store r o).view r0 = m.view r0 := by
  simp [Memory.view, Memory.store, Memory.slice, Function.update_apply, hne]

/-- One call keeps memory well formed. -/
theorem step_WF (grow : Nat → Nat) (m : Memory) (hm : m.WF) (c : Nat × DiscoveryOp) :
    (step grow m c).WF := by
  obtain ⟨r, op⟩ := c
  cases op with
  | addAPIRoot s => exact AddAPIRoot_WF grow m hm r s
  | setTitle s => exact store_WF m hm r _ rfl
  | setDescription s => exact store_WF m hm r _ rfl
  | setContact s => exact store_WF m hm r _ rfl
  | setDefault s => exact store_WF m hm r _ rfl
  | getTitle => exact hm
  | getDescription => exact hm
  | getContact => exact hm
  | getDefault => exact hm

/-- One call through a pointer leaves the value of every other object. -/
theorem step_view_other (grow : Nat → Nat) (m : Memory) (hm : m.WF)
    (c : Nat × DiscoveryOp) (r0 : Nat) (hne : r0 ≠ c.1) :
    (step grow m c).view r0 = m.view r0 := by
  obtain ⟨r, op⟩ := c
  cases op with
  | addAPIRoot s => exact AddAPIRoot_view_other grow m hm r r0 s hne
  | setTitle s => exact store_view_other m r r0 _ hne
  | setDescription s => exact store_view_other m r r0 _ hne
  | setContact s => exact store_view_other m r r0 _ hne
  | setDefault s => exact store_view_other m r r0 _ hne
  | getTitle => rfl
  | getDescription => rfl
  | getContact => rfl
  | getDefault => rfl

/-- One call through a pointer does to the value of its object what the call
does to a value. -/
theorem step_view_same (grow : Nat → Nat) (m : Memory) (hm : m.WF) (r : Nat)
    (op : DiscoveryOp) : (step grow m (r, op)).view r = (m.view r).step op := by
  cases op with
  | addAPIRoot s => exact AddAPIRoot_view_same grow m hm r s
  | setTitle s => simp [step, SetTitle, Memory.view, Memory.store, Memory.slice,
      Discovery.step, Discovery.SetTitle, TitleProperty.SetTitle]
  | setDescription s => simp [step, SetDescription, Memory.view, Memory.store, Memory.slice,
      Discovery.step, Discovery.SetDescription, DescriptionProperty.SetDescription]
  | setContact s => simp [step, SetContact, Memory.view, Memory.store, Memory.slice,
      Discovery.step, Discovery.SetContact]
  | setDefault s => simp [step, SetDefault, Memory.view, Memory.store, Memory.slice,
      Discovery.step, Discovery.SetDefault]
  | getTitle => rfl
  | getDescription => rfl
  | getContact => rfl
  | getDefault => rfl

/-- A call sequence keeps memory well formed. -/
theorem run_WF (grow : Nat → Nat) (cs : List (Nat × DiscoveryOp)) :
    ∀ m : Memory, m.WF → (run grow m cs).WF := by
  induction cs with
  | nil => intro m hm; exact hm
  | cons c cs ih => intro m hm; exact ih (step grow m c) (step_WF grow m hm c)

/-- After a call sequence the value of each object is what its own calls make
of its value before. -/
theorem run_view (grow : Nat → Nat) (cs : List (Nat × DiscoveryOp)) :
    ∀ m : Memory, m.WF → ∀ r, (run grow m cs).view r = (m.view r).run (callsOn r cs) := by
  induction cs with
  | nil => intro m _ r; rfl
  | cons c cs ih =>
    intro m hm r
    have h := ih (step grow m c) (step_WF grow m hm c) r
    have hrun : run grow m (c :: cs) = run grow (step grow m c) cs := rfl
    rw [hrun, h]
    by_cases hc : c.1 = r
    · obtain ⟨r1, op⟩ := c
      simp only at hc
      subst hc
      rw [step_view_same grow m hm]
      simp [callsOn, Discovery.run]
    · rw [step_view_other grow m hm c r (Ne.symm hc)]
      simp [callsOn, hc]

/-- Calls through one pointer only. -/
theorem callsOn_map_same (r : Nat) (ops : List DiscoveryOp) :
    callsOn r (ops.map (fun op => (r, op))) = ops := by
  induction ops with
  | nil => rfl
  | cons op ops ih =>
    simp only [callsOn, List.map_cons, List.filter_cons, beq_self_eq_true, if_true] at ih ⊢
    rw [ih]

/-- Calls through another pointer only. -/
theorem callsOn_map_other (r r0 : Nat) (hne : r0 ≠ r) (ops : List DiscoveryOp) :
    callsOn r0 (ops.map (fun op => (r, op))) = [] := by
  induction ops with
  | nil => rfl
  | cons op ops ih =>
    have h : (r == r0) = false := by simpa using Ne.symm hne
    simp only [callsOn, List.map_cons, List.filter_cons, h] at ih ⊢
    exact ih

/-- Empty memory is well formed. -/
theorem empty_WF : Memory.empty.WF := by
  constructor
  · intro r h hh
    simp [Memory.empty, zeroObject] at hh
  · intro r r2 h h2 _ hh
    simp [Memory.empty, zeroObject] at hh

/-- `New` keeps memory well formed. -/
theorem New_WF (m : Memory) (hm : m.WF) : (heap.New m).1.WF := by
  have key : ∀ r0 h0, (((heap.New m).1).objects r0).APIRoots = some h0 →
      (m.objects r0).APIRoots = some h0 := by
    intro r0 h0 hh
    by_cases h : r0 = m.nextObject
    · subst h
      simp [heap.New, zeroObject] at hh
    · simpa [heap.New, Function.update_apply, h] using hh
  constructor
  · intro r0 h0 hh
    exact hm.1 r0 h0 (key r0 h0 hh)
  · intro r0 r3 h0 h3 hne hh0 hh3
    exact hm.2 r0 r3 h0 h3 hne (key r0 h0 hh0) (key r3 h3 hh3)

/-- Memory after two `New()` calls is well formed. -/
theorem twoNew_WF : twoNew.WF := New_WF _ (New_WF _ empty_WF)

end heap

/-- C15. Two `Discovery` objects, each from its own `New()` call, share no
state: the two pointers differ, and after any history of calls through any
pointers, any sequence of setter, getter and `AddAPIRoot` calls through the
first pointer leaves every field of the second object (title, description,
contact, default, and `APIRoots` as read from its backing array) as it was,
and the other way round; the fields of each object are what its own calls
make of a new object, whatever the capacity growth rule of `append` is. -/
theorem C15_instances_do_not_share_state :
    heap.d1 ≠ heap.d2 ∧
    heap.twoNew.view heap.d1 = New ∧
    heap.twoNew.view heap.d2 = New ∧
    (∀ (grow : Nat → Nat) (history : List (Nat × DiscoveryOp)) (ops : List DiscoveryOp),
      (heap.run grow (heap.run grow heap.twoNew history)
          (ops.map (fun op => (heap.d1, op)))).view heap.d2
        = (heap.run grow heap.twoNew history).view heap.d2 ∧
      (heap.run grow (heap.run grow heap.twoNew history)
          (ops.map (fun op => (heap.d2, op)))).view heap.d1
        = (heap.run grow heap.twoNew history).view heap.d1 ∧
      (heap.run grow heap.twoNew history).view heap.d1
        = New.run (heap.callsOn heap.d1 history) ∧
      (heap.run grow heap.twoNew history).view heap.d2
        = New.run (heap.callsOn heap.d2 history)) := by
  have hne : heap.d1 ≠ heap.d2 := by decide
  have h1 : heap.twoNew.view heap.d1 = New := by decide
  have h2 : heap.twoNew.view heap.d2 = New := by decide
  refine ⟨hne, h1, h2, ?_⟩
  intro grow history ops
  have hw := heap.run_WF grow history heap.twoNew heap.twoNew_WF
  refine ⟨?_, ?_, ?_, ?_⟩
  · rw [heap.run_view grow _ _ hw, heap.callsOn_map_other heap.d1 heap.d2 (Ne.symm hne)]
    rfl
  · rw [heap.run_view grow _ _ hw, heap.callsOn_map_other heap.d2 heap.d1 hne]
    rfl
  · rw [heap.run_view grow _ _ heap.twoNew_WF, h1]
  · rw [heap.run_view grow _ _ heap.twoNew_WF, h2]

/-- The number of added roots is the number of `AddAPIRoot` calls. -/
theorem addedRoots_length (ops : List DiscoveryOp) :
    (addedRoots ops).length = ops.countP DiscoveryOp.isAddAPIRoot := by
  induction ops with
  | nil => rfl
  | cons op ops ih =>
    cases op <;> simp [addedRoots, DiscoveryOp.isAddAPIRoot, List.countP_cons, ih]

/-- C16. In every state reached from `New()` by a finite sequence of calls
(the setters and getters of `Discovery` and of its embedded units, and
`AddAPIRoot`), `APIRoots` holds exactly the arguments of the `AddAPIRoot`
calls so far, in call order; its length is the number of those calls; it is
nil exactly if there was none, and never allocated and empty; and no call
removes or reorders an element. -/
theorem C16_reachable_APIRoots :
    (∀ ops : List DiscoveryOp,
      (New.run ops).APIRoots.elems = addedRoots ops ∧
      (New.run ops).APIRoots.len = ops.countP DiscoveryOp.isAddAPIRoot ∧
      ((New.run ops).APIRoots = none ↔ ops.countP DiscoveryOp.isAddAPIRoot = 0) ∧
      (New.run ops).APIRoots ≠ some [] ∧
      (New.run ops).APIRoots = if addedRoots ops = [] then none else some (addedRoots ops)) ∧
    (∀ (ops : List DiscoveryOp) (op : DiscoveryOp),
      (New.run ops).APIRoots.elems <+: ((New.run ops).step op).APIRoots.elems) ∧
    (∀ (ops more : List DiscoveryOp),
      (New.run ops).APIRoots.elems <+: (New.run (ops ++ more)).APIRoots.elems) := by
  have hnew : New.APIRoots ≠ some [] := by decide
  refine ⟨fun ops => ?_, fun ops op => ?_, fun ops more => ?_⟩
  · have he := Discovery.run_elems ops New
    have hn := Discovery.run_nil ops New hnew
    have he2 : (New.run ops).APIRoots.elems = addedRoots ops := by
      rw [he]; rfl
    have hl := addedRoots_length ops
    refine ⟨he2, ?_, ?_, hn.2, ?_⟩
    · rw [StringSlice.len, he2, hl]
    · rw [hn.1, ← hl]
      simp [New]
    · cases hr : (New.run ops).APIRoots with
      | none =>
        rw [hr] at he2
        rw [← he2]
        rfl
      | some l =>
        rw [hr] at he2
        have hl2 : l = addedRoots ops := he2
        have hne : l ≠ [] := by
          intro h0
          exact hn.2 (by rw [hr, h0])
        rw [← hl2, if_neg hne]
  · rw [Discovery.step_elems]
    exact List.prefix_append _ _
  · have hrun : New.run (ops ++ more) = (New.run ops).run more := by
      simp [Discovery.run, List.foldl_append]
    rw [hrun, Discovery.run_elems more]
    exact List.prefix_append _ _

/-- C17. The two `LangProperty` implementations are equivalent: on states
with the same `Lang`, `GetLang` returns the same string, `SetLang(s)` returns
the same error and leaves the same `Lang`, and the documents before and after
are the same; both have the single field `lang`, with `omitempty`. -/
theorem C17_lang_properties_equivalent (p : properties.LangProperty)
    (o : baseobject.LangProperty) (s : GoString) (h : p.Lang = o.Lang) :
    p.GetLang = o.GetLang ∧
    (p.SetLang s).2 = (o.SetLang s).2 ∧
    (p.SetLang s).1.Lang = (o.SetLang s).1.Lang ∧
    (p.SetLang s).1.GetLang = (o.SetLang s).1.GetLang ∧
    json.Marshal properties.LangProperty.fields p
      = json.Marshal baseobject.LangProperty.fields o ∧
    json.Marshal properties.LangProperty.fields (p.SetLang s).1
      = json.Marshal baseobject.LangProperty.fields (o.SetLang s).1 ∧
    properties.LangProperty.fields.map (fun f => (f.name, f.tagged, f.omitEmpty, f.depth))
      = [("lang", true, true, 0)] ∧
    baseobject.LangProperty.fields.map (fun f => (f.name, f.tagged, f.omitEmpty, f.depth))
      = [("lang", true, true, 0)] := by
  have hm : ∀ (p : properties.LangProperty) (o : baseobject.LangProperty), p.Lang = o.Lang →
      json.Marshal properties.LangProperty.fields p
        = json.Marshal baseobject.LangProperty.fields o := by
    intro p o hpo
    have h1 : json.Marshal properties.LangProperty.fields p
        = if p.Lang = "" then [] else [("lang", json.Value.elem (.str p.Lang.toText))] :=
      (json.Marshal_singleton _ p).trans (json.emit_stringField _ _ _ p)
    have h2 : json.Marshal baseobject.LangProperty.fields o
        = if o.Lang = "" then [] else [("lang", json.Value.elem (.str o.Lang.toText))] :=
      (json.Marshal_singleton _ o).trans (json.emit_stringField _ _ _ o)
    rw [h1, h2, hpo]
  exact ⟨h, rfl, rfl, rfl, hm p o h, hm _ _ rfl, rfl, rfl⟩

/-- C17 at the states with `Lang` "en" and the argument "fr". -/
theorem C17_lang_properties_equivalent_witness :
    ({ Lang := "en" } : properties.LangProperty).Lang
      = ({ Lang := "en" } : baseobject.LangProperty).Lang ∧
    (({ Lang := "en" } : properties.LangProperty).SetLang "fr").1.GetLang
      = (({ Lang := "en" } : baseobject.LangProperty).SetLang "fr").1.GetLang ∧
    json.Marshal properties.LangProperty.fields
        (({ Lang := "en" } : properties.LangProperty).SetLang "fr").1
      = json.Marshal baseobject.LangProperty.fields
        (({ Lang := "en" } : baseobject.LangProperty).SetLang "fr").1 :=
  have h := C17_lang_properties_equivalent { Lang := "en" } { Lang := "en" } "fr" rfl
  ⟨rfl, h.2.2.2.1, h.2.2.2.2.2.1⟩

